import Mathlib

/-!
# Verification of the Horilla HRMS installer (`install.py`)

This development embeds the parameter-acquisition, validation, and
command-orchestration logic of `install.py` (the `HorillaInstaller` class
and its entry points) into Lean and proves the specification's claims
about it.

Modelling conventions, used uniformly below:

* Python strings are Lean `String`s / `List Char`; the embedding models
  the ASCII behaviour of Python's `str` methods (`strip`, `lower`,
  `upper`) and of `int()` parsing — the installer only ever handles
  ASCII configuration data.
* The regular expressions used by `validate_domain`, `validate_email`
  and `validate_s3_region` are embedded as regex ASTs (`RE`) matched by
  a Brzozowski-derivative matcher (`matchRE`), whose correctness against
  the declarative language semantics (`RMatch`) is proved below.
  `re.match(p, s)` with a pattern of the form `^...$` succeeds exactly
  when the whole string matches, or the whole string minus one trailing
  newline matches (Python's `$` also matches just before a final
  newline); `pyRegexMatch` implements exactly that.
* External commands are opaque: an environment `Env` maps each command
  string to its outcome (`CmdOutcome`), and `run_command` translates the
  Python wrapper over that outcome.  Exceptions are modelled with
  `Except PyExc`; a Python `try`/`except` block becomes a `match` on the
  `Except` value.
* Observable effects are accumulated in a trace of `Event`s: external
  commands started, interactive prompts issued, selected printed
  messages, and configuration-file writes.  Purely informational
  `print` calls that no claim refers to are not recorded.
* Interactive input (`input()`) consumes from a `List String`; an
  exhausted list raises `EOFError`, exactly as a closed stdin does.
  `while True:` re-prompt loops are given explicit fuel; running out of
  fuel is reported as the distinguished `PyExc.fuel` marker (the Python
  loop would simply keep prompting).
-/

/-! ## Regular expressions: syntax, semantics, derivative matcher -/

/-- Regex abstract syntax: empty language, empty string, a character
class (a predicate on characters, as in `[a-z]`), concatenation,
alternation, Kleene star. -/
inductive RE where
  | empt : RE
  | eps : RE
  | cls (p : Char → Bool) : RE
  | cat (a b : RE) : RE
  | alt (a b : RE) : RE
  | star (a : RE) : RE

/-- Declarative language semantics of a regex. -/
inductive RMatch : RE → List Char → Prop where
  | eps : RMatch .eps []
  | cls {p : Char → Bool} {c : Char} : p c = true → RMatch (.cls p) [c]
  | cat {a b : RE} {u v : List Char} :
      RMatch a u → RMatch b v → RMatch (.cat a b) (u ++ v)
  | altL {a b : RE} {w : List Char} : RMatch a w → RMatch (.alt a b) w
  | altR {a b : RE} {w : List Char} : RMatch b w → RMatch (.alt a b) w
  | starNil {a : RE} : RMatch (.star a) []
  | starCons {a : RE} {u v : List Char} :
      RMatch a u → RMatch (.star a) v → RMatch (.star a) (u ++ v)

/-- Does the regex accept the empty string? -/
def RE.nullable : RE → Bool
  | .empt => false
  | .eps => true
  | .cls _ => false
  | .cat a b => a.nullable && b.nullable
  | .alt a b => a.nullable || b.nullable
  | .star _ => true

/-- Smart concatenation (simplifies the unit and absorbing elements so
derivative terms stay small). -/
def RE.mkCat : RE → RE → RE
  | .empt, _ => .empt
  | .eps, b => b
  | _, .empt => .empt
  | a, .eps => a
  | a, b => .cat a b

/-- Smart alternation. -/
def RE.mkAlt : RE → RE → RE
  | .empt, b => b
  | a, .empt => a
  | a, b => .alt a b

/-- Brzozowski derivative of a regex by a character. -/
def RE.deriv : RE → Char → RE
  | .empt, _ => .empt
  | .eps, _ => .empt
  | .cls p, c => if p c then .eps else .empt
  | .cat a b, c =>
      if a.nullable then .mkAlt (.mkCat (a.deriv c) b) (b.deriv c)
      else .mkCat (a.deriv c) b
  | .alt a b, c => .mkAlt (a.deriv c) (b.deriv c)
  | .star a, c => .mkCat (a.deriv c) (.star a)

/-- Derivative-based matcher: accept `w` iff the iterated derivative is
nullable. -/
def matchRE (r : RE) : List Char → Bool
  | [] => r.nullable
  | c :: w => matchRE (r.deriv c) w

/-! ## Character classes and the three regex patterns of `install.py` -/

def isAsciiLower (c : Char) : Bool := 'a' ≤ c && c ≤ 'z'

def isAsciiUpper (c : Char) : Bool := 'A' ≤ c && c ≤ 'Z'

def isAsciiAlpha (c : Char) : Bool := isAsciiLower c || isAsciiUpper c

def isAsciiDigit (c : Char) : Bool := '0' ≤ c && c ≤ '9'

/-- The `[a-zA-Z0-9]` class. -/
def isAlnumChar (c : Char) : Bool := isAsciiAlpha c || isAsciiDigit c

/-- The `[a-zA-Z0-9-]` class. -/
def isLabelChar (c : Char) : Bool := isAlnumChar c || c = '-'

/-- The `[a-zA-Z0-9._%+-]` class (local part of an email). -/
def isLocalChar (c : Char) : Bool :=
  isAlnumChar c || c = '.' || c = '_' || c = '%' || c = '+' || c = '-'

/-- The `[a-zA-Z0-9.-]` class (domain part of the email pattern). -/
def isEmailDomainChar (c : Char) : Bool :=
  isAlnumChar c || c = '.' || c = '-'

/-- `r+` (one or more). -/
def rePlus (r : RE) : RE := .cat r (.star r)

/-- `r{0,n}` (at most `n` repetitions). -/
def reRepAtMost : Nat → RE → RE
  | 0, _ => .eps
  | n + 1, r => .alt .eps (.cat r (reRepAtMost n r))

/-- One hostname label: `[a-zA-Z0-9](?:[a-zA-Z0-9-]{0,61}[a-zA-Z0-9])?`. -/
def labelRE : RE :=
  .cat (.cls isAlnumChar)
    (.alt .eps (.cat (reRepAtMost 61 (.cls isLabelChar)) (.cls isAlnumChar)))

/-- Final hostname label: `[a-zA-Z0-9][a-zA-Z0-9-]{0,61}[a-zA-Z0-9]`. -/
def finalLabelRE : RE :=
  .cat (.cls isAlnumChar)
    (.cat (reRepAtMost 61 (.cls isLabelChar)) (.cls isAlnumChar))

/-- `domain_pattern` of `validate_domain` (install.py line 1371):
`^(?:[a-zA-Z0-9](?:[a-zA-Z0-9-]{0,61}[a-zA-Z0-9])?\.)+[a-zA-Z0-9][a-zA-Z0-9-]{0,61}[a-zA-Z0-9]$`
(the `^`/`$` anchors are handled by `pyRegexMatch`). -/
def domainRE : RE :=
  .cat (rePlus (.cat labelRE (.cls (fun c => c = '.')))) finalLabelRE

/-- `email_pattern` of `validate_email` (install.py line 1388):
`^[a-zA-Z0-9._%+-]+@[a-zA-Z0-9.-]+\.[a-zA-Z]{2,}$`. -/
def emailRE : RE :=
  .cat (rePlus (.cls isLocalChar))
    (.cat (.cls (fun c => c = '@'))
      (.cat (rePlus (.cls isEmailDomainChar))
        (.cat (.cls (fun c => c = '.'))
          (.cat (.cls isAsciiAlpha) (rePlus (.cls isAsciiAlpha))))))

/-- `region_pattern` of `validate_s3_region` (install.py line 1598):
`^[a-z]{2}-[a-z]+-[0-9]+$`. -/
def regionRE : RE :=
  .cat (.cls isAsciiLower)
    (.cat (.cls isAsciiLower)
      (.cat (.cls (fun c => c = '-'))
        (.cat (rePlus (.cls isAsciiLower))
          (.cat (.cls (fun c => c = '-'))
            (rePlus (.cls isAsciiDigit))))))

/-- `re.match(p, s)` for the anchored patterns `^...$` above: the whole
string matches, or — because Python's `$` also matches just before a
trailing newline — the whole string minus one final `'\n'` matches. -/
def pyRegexMatch (r : RE) (s : String) : Bool :=
  matchRE r s.data || (s.data.getLast? == some '\n' && matchRE r s.data.dropLast)

/-! ## Python string and `int()` helpers -/

/-- Characters Python's `str.strip()` removes (ASCII whitespace). -/
def pyWhitespace (c : Char) : Bool :=
  c = ' ' || c = '\t' || c = '\n' || c = '\r' ||
  c = Char.ofNat 11 || c = Char.ofNat 12

/-- Strip characters satisfying `p` from both ends of a list. -/
def pyStripChars (p : Char → Bool) (l : List Char) : List Char :=
  ((l.dropWhile p).reverse.dropWhile p).reverse

/-- Python `str.strip()`. -/
def pyStrip (s : String) : String := String.mk (pyStripChars pyWhitespace s.data)

/-- ASCII uppercasing of one character. -/
def pyUpperChar (c : Char) : Char :=
  if isAsciiLower c then Char.ofNat (c.toNat - 32) else c

/-- ASCII lowercasing of one character. -/
def pyLowerChar (c : Char) : Char :=
  if isAsciiUpper c then Char.ofNat (c.toNat + 32) else c

/-- Python `str.upper()` (ASCII). -/
def pyUpper (s : String) : String := String.mk (s.data.map pyUpperChar)

/-- Python `str.lower()` (ASCII). -/
def pyLower (s : String) : String := String.mk (s.data.map pyLowerChar)

/-- Python `str.split(sep)` for a single-character separator: splits on
every occurrence; `"".split('.') == ['']` and consecutive separators
produce empty fields. -/
def splitOnChar (sep : Char) : List Char → List (List Char)
  | [] => [[]]
  | c :: rest =>
    if c = sep then [] :: splitOnChar sep rest
    else
      match splitOnChar sep rest with
      | [] => [[c]]
      | h :: t => (c :: h) :: t

/-- Everything before the first occurrence of `pat`
(`s.split(pat)[0]` for a multi-character separator; returns the whole
list when `pat` does not occur). -/
def takeBeforeFirst (pat : List Char) : List Char → List Char
  | [] => []
  | c :: rest =>
    if pat.isPrefixOf (c :: rest) then []
    else c :: takeBeforeFirst pat rest

def digitVal (c : Char) : Nat := c.toNat - '0'.toNat

/-- Digit run continuation for `pyInt`: after at least one digit, accept
further digits with single underscores allowed only between digits. -/
def pyDigitsAux : Nat → List Char → Option Nat
  | acc, [] => some acc
  | acc, c :: rest =>
    if isAsciiDigit c then pyDigitsAux (10 * acc + digitVal c) rest
    else if c = '_' then
      match rest with
      | [] => none
      | d :: rest2 =>
        if isAsciiDigit d then pyDigitsAux (10 * acc + digitVal d) rest2
        else none
    else none

/-- Nonempty digit run (with Python's between-digit underscores). -/
def pyDigits : List Char → Option Nat
  | [] => none
  | c :: rest => if isAsciiDigit c then pyDigitsAux (digitVal c) rest else none

/-- Python `int(s)` (base 10, ASCII): optional surrounding whitespace,
optional sign, then digits with single underscores between digits;
`none` models the `ValueError` that `int` raises otherwise. -/
def pyInt (l : List Char) : Option Int :=
  match pyStripChars pyWhitespace l with
  | [] => none
  | c :: rest =>
    if c = '+' then (pyDigits rest).map Int.ofNat
    else if c = '-' then (pyDigits rest).map (fun n => -Int.ofNat n)
    else (pyDigits (c :: rest)).map Int.ofNat

/-! ## The validators of `HorillaInstaller` -/

/-- The literal `'.nip.io'`. -/
def nipSuffix : List Char := ".nip.io".data

/-- One `.nip.io` octet is accepted when `int(octet)` succeeds with a
value in `0..255` (`validate_domain`, install.py lines 1361-1364; a
`ValueError` from `int` is caught and yields `False`). -/
def octetOk (o : List Char) : Bool :=
  match pyInt o with
  | some n => decide (0 ≤ n ∧ n ≤ 255)
  | none => false

/-- `HorillaInstaller.validate_domain` (install.py lines 1341-1375).
A domain ending in `'.nip.io'` is judged solely by the IPv4 branch:
`ip_part = domain.split('.nip.io')[0]` (text before the *first*
occurrence), which must split on `'.'` into exactly four octets each
accepted by `int` with value `0..255`; every other domain is matched
against `domain_pattern`. -/
def validate_domain (domain : String) : Bool :=
  let cs := domain.data
  if nipSuffix.isSuffixOf cs then
    let ipPart := takeBeforeFirst nipSuffix cs
    let octets := splitOnChar '.' ipPart
    if octets.length = 4 then octets.all octetOk else false
  else
    pyRegexMatch domainRE domain

/-- `HorillaInstaller.validate_email` (install.py lines 1377-1396):
match `email_pattern`, then require `email.split('@')` to have exactly
two nonempty parts, and validate the domain part with
`validate_domain`. -/
def validate_email (email : String) : Bool :=
  if pyRegexMatch emailRE email then
    match splitOnChar '@' email.data with
    | [l, d] =>
      if l.isEmpty || d.isEmpty then false else validate_domain (String.mk d)
    | _ => false
  else false

/-- The `corrections` table of `validate_s3_region`
(install.py lines 1606-1627). -/
def s3RegionCorrections : List (String × String) :=
  [("US1", "us-east-1"), ("US2", "us-east-2"), ("USW1", "us-west-1"),
   ("USW2", "us-west-2"), ("EU", "eu-west-1"), ("EU1", "eu-west-1"),
   ("EU2", "eu-central-1"), ("AP", "ap-southeast-1"),
   ("AP1", "ap-southeast-1"), ("TOKYO", "ap-northeast-1"),
   ("JAPAN", "ap-northeast-1"), ("FRANKFURT", "eu-central-1"),
   ("IRELAND", "eu-west-1"), ("OREGON", "us-west-2"),
   ("VIRGINIA", "us-east-1"), ("OHIO", "us-east-2"),
   ("CALIFORNIA", "us-west-1"), ("SINGAPORE", "ap-southeast-1"),
   ("MUMBAI", "ap-south-1"), ("INDIA", "ap-south-1")]

/-- The `valid_aws_regions` list (install.py lines 1638-1645). -/
def validAwsRegions : List String :=
  ["us-east-1", "us-east-2", "us-west-1", "us-west-2",
   "af-south-1", "ap-east-1", "ap-south-1", "ap-northeast-1",
   "ap-northeast-2", "ap-northeast-3", "ap-southeast-1",
   "ap-southeast-2", "ca-central-1", "eu-central-1",
   "eu-west-1", "eu-west-2", "eu-west-3", "eu-south-1",
   "eu-north-1", "me-south-1", "sa-east-1"]

/-- `HorillaInstaller.validate_s3_region` (install.py lines 1586-1659).
The function also assigns `self.s3_region` on every path, so it is
modelled as returning the new `s3_region` value together with the
boolean result: standard-format regions are kept as-is, known aliases
are corrected, known AWS regions are case-normalised, and anything else
falls back to `"us-east-1"`; every path returns `True`. -/
def validate_s3_region (region : String) : String × Bool :=
  if pyRegexMatch regionRE region then (region, true)
  else
    match s3RegionCorrections.lookup (pyUpper region) with
    | some corrected => (corrected, true)
    | none =>
      match validAwsRegions.find? (fun v => pyLower region == pyLower v) with
      | some v => (v, true)
      | none => ("us-east-1", true)

/-! ## Command execution: environment, exceptions, `run_command` -/

/-- Outcome of launching one external command, supplied by the
environment: either the process ran to completion with an exit code and
captured stdout/stderr, or one of the failures that `run_command`'s
handlers distinguish occurred. -/
inductive CmdOutcome where
  | completed (returncode : Int) (stdout stderr : String)
  | timedOut
  | fileNotFound (msg : String)
  | subprocessError (msg : String)
  | otherError (msg : String)

/-- Python exceptions relevant to the installer.  `eofError` is what
`input()` raises on exhausted stdin; `fuel` is the modelling marker for
a `while True:` re-prompt loop that did not finish within the supplied
fuel. -/
inductive PyExc where
  | timeoutExpired
  | fileNotFound (msg : String)
  | subprocessError (msg : String)
  | otherError (msg : String)
  | eofError
  | fuel
deriving DecidableEq

/-- The environment: what each external command does when executed. -/
def Env := String → CmdOutcome

/-- The `try:` block of `HorillaInstaller.run_command` (install.py
lines 155-188): wait for the process, compute `success` from the exit
code, and assemble the output (stderr, when present, is appended after
an `"Error output: "` marker); the distinguished failures surface as
exceptions for the handlers below. -/
def runCommandTry (o : CmdOutcome) : Except PyExc (Bool × String) :=
  match o with
  | .completed rc out err =>
    let success := rc == 0
    let output :=
      if err ≠ "" then (if out ≠ "" then out ++ "\n" else out) ++ "Error output: " ++ err
      else out
    .ok (success, output)
  | .timedOut => .error .timeoutExpired
  | .fileNotFound m => .error (.fileNotFound m)
  | .subprocessError m => .error (.subprocessError m)
  | .otherError m => .error (.otherError m)

/-- `HorillaInstaller.run_command` (install.py lines 139-213): the
`try:` block wrapped in handlers for `TimeoutExpired`,
`FileNotFoundError`, `SubprocessError` and the catch-all `Exception`,
each of which returns `(False, message)` instead of re-raising.  (The
interpolated timeout value of the real timeout message is not
tracked.) -/
def run_command (o : CmdOutcome) : Except PyExc (Bool × String) :=
  match runCommandTry o with
  | .ok r => .ok r
  | .error .timeoutExpired => .ok (false, "Command timed out")
  | .error (.fileNotFound m) => .ok (false, "Failed to run command: " ++ m)
  | .error (.subprocessError m) => .ok (false, "Failed to run command: " ++ m)
  | .error (.otherError m) => .ok (false, "Failed to run command: " ++ m)
  | .error e => .error e

/-- Total reading of `run_command`, used by the callers below; claim
C10's theorem shows `run_command` never actually raises, so the default
arm is unreachable. -/
def runCmdTotal (o : CmdOutcome) : Bool × String :=
  match run_command o with
  | .ok r => r
  | .error _ => (false, "")

/-- Observable events of a run. -/
inductive Event where
  | cmd (command : String)
  | prompt (text : String)
  | print (text : String)
  | step (name : String)
  | save
deriving DecidableEq

def isPromptEvent : Event → Bool
  | .prompt _ => true
  | _ => false

def isCmdEvent : Event → Bool
  | .cmd _ => true
  | _ => false

def isStepEvent : Event → Bool
  | .step _ => true
  | _ => false

/-! ## Installer state, arguments, saved configuration -/

/-- The fields of `HorillaInstaller` that the modelled methods read or
write, as set in `__init__` (install.py lines 29-53).  `argparse`
supplies no default for `--domain`, `--s3-provider`, `--s3-access-key`,
`--s3-secret-key` and `--s3-bucket-name`, so those are `Option`s whose
`none` is Python's `None`. -/
structure St where
  domain : Option String
  admin_username : String
  admin_password : String
  email : String
  install_dir : String
  force_continue : Bool
  force_no_ssl : Bool
  non_interactive : Bool
  skip_upgrade : Bool
  skip_root_check : Bool
  enable_backups : Bool
  s3_provider : Option String
  s3_access_key : Option String
  s3_secret_key : Option String
  s3_region : String
  s3_bucket_name : Option String
  backup_frequency : String
  is_tty : Bool
deriving DecidableEq

/-- Truthiness of an optional string (`None` and `""` are falsy). -/
def pyFalsyOpt : Option String → Bool
  | none => true
  | some s => s = ""

/-- `f"{x}"` for an optional string (`None` prints as `"None"`). -/
def pyShowOpt : Option String → String
  | none => "None"
  | some s => s

/-- Command-line arguments as produced by `parse_args`
(install.py lines 1867-1899), with argparse's defaults. -/
structure Args where
  domain : Option String := none
  admin_username : String := "admin"
  admin_password : String := "Admin@123"
  email : String := "admin@example.com"
  install_dir : String := "/opt/horilla"
  non_interactive : Bool := false
  force_continue : Bool := false
  force_no_ssl : Bool := false
  skip_upgrade : Bool := false
  skip_root_check : Bool := false
  enable_backups : String := "no"
  s3_provider : Option String := none
  s3_access_key : Option String := none
  s3_secret_key : Option String := none
  s3_region : String := "us-east-1"
  s3_bucket_name : Option String := none
  backup_frequency : String := "1"

/-- Contents of a previous run's cache file
(`/tmp/horilla_install_config.json`) as far as `load_saved_config`
reads it; each field may be absent from the JSON object. -/
structure SavedConfig where
  domain : Option String := none
  email : Option String := none
  admin_username : Option String := none
  admin_password : Option String := none
  install_dir : Option String := none
  enable_backups : Option Bool := none
  s3_provider : Option String := none
  s3_access_key : Option String := none
  s3_secret_key : Option String := none
  s3_region : Option String := none
  s3_bucket_name : Option String := none
  backup_frequency : Option String := none

/-- `HorillaInstaller.load_saved_config` (install.py lines 66-108):
fields from the cache file override the current value only when that
value still equals the argparse default. -/
def load_saved_config (st : St) (cfg : Option SavedConfig) : St :=
  match cfg with
  | none => st
  | some c =>
    let st := match st.domain, c.domain with
      | none, some d => { st with domain := some d }
      | _, _ => st
    let st := match c.email with
      | some v => if st.email = "admin@example.com" then { st with email := v } else st
      | none => st
    let st := match c.admin_username with
      | some v => if st.admin_username = "admin" then { st with admin_username := v } else st
      | none => st
    let st := match c.admin_password with
      | some v => if st.admin_password = "Admin@123" then { st with admin_password := v } else st
      | none => st
    let st := match c.install_dir with
      | some v => if st.install_dir = "/opt/horilla" then { st with install_dir := v } else st
      | none => st
    let st := match c.enable_backups with
      | some v => if !st.enable_backups then { st with enable_backups := v } else st
      | none => st
    let st := match c.s3_provider with
      | some v => if st.s3_provider = some "1" then { st with s3_provider := some v } else st
      | none => st
    let st := match c.s3_access_key with
      | some v => if pyFalsyOpt st.s3_access_key then { st with s3_access_key := some v } else st
      | none => st
    let st := match c.s3_secret_key with
      | some v => if pyFalsyOpt st.s3_secret_key then { st with s3_secret_key := some v } else st
      | none => st
    let st := match c.s3_region with
      | some v => if st.s3_region = "us-east-1" then { st with s3_region := v } else st
      | none => st
    let st := match c.s3_bucket_name with
      | some v => if pyFalsyOpt st.s3_bucket_name then { st with s3_bucket_name := some v } else st
      | none => st
    let st := match c.backup_frequency with
      | some v => if st.backup_frequency = "1" then { st with backup_frequency := v } else st
      | none => st
    st

/-- `HorillaInstaller.__init__` (install.py lines 29-64): copy the
arguments into the installer state, compute
`is_tty = sys.stdout.isatty() and not args.non_interactive`, then exit
with code 1 whenever the effective user id is nonzero — this check is
unconditional and ignores `--skip-root-check` — and finally merge any
saved configuration. -/
def horillaInit (args : Args) (stdoutTTY : Bool) (euid : Nat)
    (cfg : Option SavedConfig) : Except Nat St :=
  let st : St :=
    { domain := args.domain
      admin_username := args.admin_username
      admin_password := args.admin_password
      email := args.email
      install_dir := args.install_dir
      force_continue := args.force_continue
      force_no_ssl := args.force_no_ssl
      non_interactive := args.non_interactive
      skip_upgrade := args.skip_upgrade
      skip_root_check := args.skip_root_check
      enable_backups := pyLower args.enable_backups = "yes"
      s3_provider := args.s3_provider
      s3_access_key := args.s3_access_key
      s3_secret_key := args.s3_secret_key
      s3_region := args.s3_region
      s3_bucket_name := args.s3_bucket_name
      backup_frequency := args.backup_frequency
      is_tty := stdoutTTY && !args.non_interactive }
  if euid ≠ 0 then .error 1
  else .ok (load_saved_config st cfg)

/-! ## Interactive input and `get_user_inputs` -/

/-- A single-quote character, for building shell command strings. -/
def sQuote : String := String.mk [Char.ofNat 39]

/-- The server-IP probe at the top of `get_user_inputs`
(install.py lines 1428-1448): try `curl -s ifconfig.me`, then
`curl -s ipv4.icanhazip.com`, then `hostname -I | awk ...`, keeping
`"127.0.0.1"` when none yields output containing a dot.  `run_command`
never raises, so the `except: pass` arms are dead. -/
def detectServerIp (env : Env) : String × List Event :=
  let cmd1 := "curl -s ifconfig.me"
  let r1 := runCmdTotal (env cmd1)
  let t1 := pyStrip r1.2
  if r1.1 && t1 ≠ "" && t1.contains '.' then (t1, [.cmd cmd1])
  else
    let cmd2 := "curl -s ipv4.icanhazip.com"
    let r2 := runCmdTotal (env cmd2)
    let t2 := pyStrip r2.2
    if r2.1 && t2 ≠ "" && t2.contains '.' then (t2, [.cmd cmd1, .cmd cmd2])
    else
      let cmd3 := "hostname -I | awk " ++ sQuote ++ "\x7bprint $1\x7d" ++ sQuote
      let r3 := runCmdTotal (env cmd3)
      let t3 := pyStrip r3.2
      if r3.1 && t3 ≠ "" && t3.contains '.' then
        (t3, [.cmd cmd1, .cmd cmd2, .cmd cmd3])
      else ("127.0.0.1", [.cmd cmd1, .cmd cmd2, .cmd cmd3])

/-- `input(prompt).strip() or default`: one prompt, empty answer keeps
the default. -/
def promptOr (promptTxt default : String) (inputs : List String) :
    (Except PyExc (String × List String)) × List Event :=
  match inputs with
  | [] => (.error .eofError, [.prompt promptTxt])
  | x :: rest =>
    let t := pyStrip x
    (.ok ((if t = "" then default else t), rest), [.prompt promptTxt])

/-- `input(prompt).strip()`: one prompt, answer taken as-is. -/
def promptRaw (promptTxt : String) (inputs : List String) :
    (Except PyExc (String × List String)) × List Event :=
  match inputs with
  | [] => (.error .eofError, [.prompt promptTxt])
  | x :: rest => (.ok (pyStrip x, rest), [.prompt promptTxt])

/-- The domain re-prompt loop of `get_user_inputs` (install.py lines
1459-1464): `self.domain` — shown in the prompt and used as the empty
default — is only reassigned when an answer validates, so it is the
same on every iteration. -/
def domainLoop (cur : String) (inputs : List String) :
    Nat → (Except PyExc (String × List String)) × List Event
  | 0 => (.error .fuel, [])
  | fuel + 1 =>
    let promptTxt := "\nDomain name [" ++ cur ++ "]: "
    match inputs with
    | [] => (.error .eofError, [.prompt promptTxt])
    | x :: rest =>
      let d := if pyStrip x = "" then cur else pyStrip x
      if validate_domain d then (.ok (d, rest), [.prompt promptTxt])
      else
        let r := domainLoop cur rest fuel
        (r.1, .prompt promptTxt :: r.2)

/-- The email re-prompt loop of `get_user_inputs` (install.py lines
1467-1472). -/
def emailLoop (cur : String) (inputs : List String) :
    Nat → (Except PyExc (String × List String)) × List Event
  | 0 => (.error .fuel, [])
  | fuel + 1 =>
    let promptTxt := "Email address for SSL certificates [" ++ cur ++ "]: "
    match inputs with
    | [] => (.error .eofError, [.prompt promptTxt])
    | x :: rest =>
      let e := if pyStrip x = "" then cur else pyStrip x
      if validate_email e then (.ok (e, rest), [.prompt promptTxt])
      else
        let r := emailLoop cur rest fuel
        (r.1, .prompt promptTxt :: r.2)

/-- The region re-prompt loop, textually identical in `get_user_inputs`
(install.py lines 1561-1565) and `validate_backup_settings` (lines
1009-1013): `validate_s3_region` reassigns `self.s3_region` on every
call, but on acceptance the caller overwrites it with the raw answer
(`self.s3_region = region`); the loop result is that raw answer.  Since
the validator always returns `True`, only the first iteration ever
runs. -/
def regionLoop (s3r : String) (inputs : List String) :
    Nat → (Except PyExc (String × List String)) × List Event
  | 0 => (.error .fuel, [])
  | fuel + 1 =>
    let promptTxt := "Region / Endpoint [" ++ s3r ++ "]: "
    match inputs with
    | [] => (.error .eofError, [.prompt promptTxt])
    | x :: rest =>
      let region := if pyStrip x = "" then s3r else pyStrip x
      if (validate_s3_region region).2 then
        (.ok (region, rest), [.prompt promptTxt])
      else
        let r := regionLoop (validate_s3_region region).1 rest fuel
        (r.1, .prompt promptTxt :: r.2)

/-- Providers for which `get_user_inputs` and
`validate_backup_settings` prompt for an AWS-style region
(install.py lines 999 and 1551). -/
def providerRegionList : List String :=
  ["1", "2", "4", "5", "6", "7", "10", "11", "12", "13", "14", "15",
   "16", "17", "19"]

/-- Providers for which an endpoint/host is read instead
(install.py lines 1014 and 1566). -/
def providerEndpointList : List String :=
  ["9", "20", "22", "23", "24", "25", "36", "37", "38", "39"]

def providerPromptTxt : String :=
  "Select S3 provider (1-5 or " ++ sQuote ++ "more" ++ sQuote ++ "): "

def morePromptTxt : String := "Select storage provider (6-41): "

def accessKeyPromptTxt : String := "Access Key / Account / Username: "

def secretKeyPromptTxt : String := "Secret Key / API Key / Password: "

def endpointPromptTxt : String := "Server Address / Endpoint URL: "

def bucketPromptTxt : String := "Bucket / Container / Share Name: "

def freqPromptTxt : String := "Select backup frequency (1-3) [1]: "

/-- The region-or-endpoint acquisition shared by the backup prompt
block of `get_user_inputs` (install.py lines 1550-1568) and
`validate_backup_settings` (lines 998-1016): providers in the region
list get the AWS-region re-prompt loop, providers in the endpoint list
get a single endpoint prompt, all others leave `s3_region` alone. -/
def regionStepFn (prov : String) (ins4 : List String) (fuel : Nat) (st : St) :
    (Except PyExc (St × List String)) × List Event :=
  if providerRegionList.contains prov then
    match regionLoop st.s3_region ins4 fuel with
    | (.error e, tr) => (.error e, tr)
    | (.ok (reg, ins5), tr) => (.ok ({ st with s3_region := reg }, ins5), tr)
  else if providerEndpointList.contains prov then
    match promptRaw endpointPromptTxt ins4 with
    | (.error e, tr) => (.error e, tr)
    | (.ok (ep, ins5), tr) => (.ok ({ st with s3_region := ep }, ins5), tr)
  else (.ok (st, ins4), [])

/-- The credential/region/bucket/frequency prompts of the
backup-configuration block of `get_user_inputs`
(install.py lines 1544-1576), after the provider choice has been
resolved: credentials, region or endpoint depending on the provider,
bucket, and the backup frequency, which is stored as the numeric menu
answer (`input("Select backup frequency (1-3) [1]: ").strip() or "1"`). -/
def backupCredsPrompts (choice : String) (ins2 : List String) (fuel : Nat)
    (st : St) : (Except PyExc (St × List String)) × List Event :=
  let prov := if choice = "" then "1" else choice
  match promptRaw accessKeyPromptTxt ins2 with
  | (.error e, tr) => (.error e, tr)
  | (.ok (ak, ins3), tr3) =>
  match promptRaw secretKeyPromptTxt ins3 with
  | (.error e, tr) => (.error e, tr3 ++ tr)
  | (.ok (sk, ins4), tr4) =>
  let st := { st with s3_provider := some prov, s3_access_key := some ak,
                      s3_secret_key := some sk }
  match regionStepFn prov ins4 fuel st with
  | (.error e, tr) => (.error e, tr3 ++ tr4 ++ tr)
  | (.ok (st, ins5), tr5) =>
  match promptRaw bucketPromptTxt ins5 with
  | (.error e, tr) => (.error e, tr3 ++ tr4 ++ tr5 ++ tr)
  | (.ok (bk, ins6), tr6) =>
  let st := { st with s3_bucket_name := some bk }
  match promptOr freqPromptTxt "1" ins6 with
  | (.error e, tr) => (.error e, tr3 ++ tr4 ++ tr5 ++ tr6 ++ tr)
  | (.ok (freq, ins7), tr7) =>
    (.ok ({ st with backup_frequency := freq }, ins7),
     tr3 ++ tr4 ++ tr5 ++ tr6 ++ tr7)

/-- The backup-configuration prompt block of `get_user_inputs`
(install.py lines 1491-1576), entered when the operator answered yes to
backups: the provider menu (with the `'more'` sub-menu and the
`provider_choice or "1"` default), then `backupCredsPrompts`. -/
def backupPrompts (inputs : List String) (fuel : Nat) (st : St) :
    (Except PyExc (St × List String)) × List Event :=
  match promptRaw providerPromptTxt inputs with
  | (.error e, tr) => (.error e, tr)
  | (.ok (choice0, ins1), tr1) =>
    if pyLower choice0 = "more" then
      match promptRaw morePromptTxt ins1 with
      | (.error e, tr) => (.error e, tr1 ++ tr)
      | (.ok (c, ins2), tr) =>
        let r := backupCredsPrompts c ins2 fuel st
        (r.1, tr1 ++ tr ++ r.2)
    else
      let r := backupCredsPrompts choice0 ins1 fuel st
      (r.1, tr1 ++ r.2)

/-- `HorillaInstaller.get_user_inputs` (install.py lines 1417-1584).
Note that it is unconditionally interactive: it never consults
`self.non_interactive` or `self.is_tty`, and prompts for every
parameter (with the current values as defaults) before saving the
configuration and returning `True`. -/
def get_user_inputs (env : Env) (inputs : List String) (fuel : Nat) (st : St) :
    (Except PyExc (St × Bool × List String)) × List Event :=
  let (serverIp, tr0) := detectServerIp env
  let defaultDomain := "horilla." ++ serverIp ++ ".nip.io"
  let dom0 := match st.domain with
    | none => defaultDomain
    | some d => if d = "" then defaultDomain else d
  match domainLoop dom0 inputs fuel with
  | (.error e, tr) => (.error e, tr0 ++ tr)
  | (.ok (dom, ins1), tr1) =>
  match emailLoop st.email ins1 fuel with
  | (.error e, tr) => (.error e, tr0 ++ tr1 ++ tr)
  | (.ok (em, ins2), tr2) =>
  match promptOr ("Admin username [" ++ st.admin_username ++ "]: ")
      st.admin_username ins2 with
  | (.error e, tr) => (.error e, tr0 ++ tr1 ++ tr2 ++ tr)
  | (.ok (usr, ins3), tr3) =>
  match promptOr ("Admin password [" ++ st.admin_password ++ "]: ")
      st.admin_password ins3 with
  | (.error e, tr) => (.error e, tr0 ++ tr1 ++ tr2 ++ tr3 ++ tr)
  | (.ok (pw, ins4), tr4) =>
  match promptOr ("Installation directory [" ++ st.install_dir ++ "]: ")
      st.install_dir ins4 with
  | (.error e, tr) => (.error e, tr0 ++ tr1 ++ tr2 ++ tr3 ++ tr4 ++ tr)
  | (.ok (dir, ins5), tr5) =>
  -- enable_backups = input(...).strip().lower() or "no"  (lines 1488-1489)
  let ebPrompt := "\nEnable automated backups? (yes/no) [no]: "
  match ins5 with
  | [] => (.error .eofError, tr0 ++ tr1 ++ tr2 ++ tr3 ++ tr4 ++ tr5 ++ [.prompt ebPrompt])
  | eb :: ins6 =>
  let ebv := if pyLower (pyStrip eb) = "" then "no" else pyLower (pyStrip eb)
  let enb := ["yes", "y", "true", "1"].contains ebv
  let st1 := { st with domain := some dom, email := em, admin_username := usr,
                       admin_password := pw, install_dir := dir,
                       enable_backups := enb }
  let trHead := tr0 ++ tr1 ++ tr2 ++ tr3 ++ tr4 ++ tr5 ++ [Event.prompt ebPrompt]
  if enb then
    match backupPrompts ins6 fuel st1 with
    | (.error e, tr) => (.error e, trHead ++ tr)
    | (.ok (st2, ins7), tr) => (.ok (st2, true, ins7), trHead ++ tr ++ [.save])
  else (.ok (st1, true, ins6), trHead ++ [.save])

/-! ## `validate_backup_settings` and the `install` pipeline -/

/-- `HorillaInstaller.validate_backup_settings` (install.py lines
983-1022): when backups are enabled, require nonempty access key,
secret key and bucket, prompt again for a region or endpoint depending
on the provider, and finally accept only the literal strings
`'daily'`, `'weekly'`, `'monthly'` as backup frequency. -/
def validate_backup_settings (inputs : List String) (fuel : Nat) (st : St) :
    (Except PyExc (St × Bool × List String)) × List Event :=
  if !st.enable_backups then (.ok (st, true, inputs), [])
  else if pyFalsyOpt st.s3_access_key then (.ok (st, false, inputs), [])
  else if pyFalsyOpt st.s3_secret_key then (.ok (st, false, inputs), [])
  else if pyFalsyOpt st.s3_bucket_name then (.ok (st, false, inputs), [])
  else
    let regionStep : (Except PyExc (St × List String)) × List Event :=
      match st.s3_provider with
      | some p => regionStepFn p inputs fuel st
      | none => (.ok (st, inputs), [])
    match regionStep with
    | (.error e, tr) => (.error e, tr)
    | (.ok (st1, ins1), tr1) =>
      if ["daily", "weekly", "monthly"].contains st1.backup_frequency then
        (.ok (st1, true, ins1), tr1)
      else
        (.ok (st1, false, ins1),
         tr1 ++ [.print "Invalid backup frequency. Must be 'daily', 'weekly', or 'monthly'."])

/-- The seven pipeline phases of `install` (install.py lines
1219-1227), by name and in order. -/
def installSteps : List String :=
  ["check_system_requirements", "install_dependencies", "setup_horilla",
   "configure_settings", "initialize_application", "configure_web_server",
   "configure_backup_system"]

/-- Run the pipeline phases in order, stopping at the first failure
(install.py lines 1229-1233).  The phases' own behaviour is abstracted
by `runStep`; a `.step` event records each phase that starts. -/
def runSteps (runStep : String → St → Bool) (st : St) :
    List String → Bool × List Event
  | [] => (true, [])
  | s :: rest =>
    if runStep s st then
      let (b, tr) := runSteps runStep st rest
      (b, .step s :: tr)
    else (false, [.step s])

/-- `HorillaInstaller.install` (install.py lines 1202-1238): gather
user inputs (which always returns `True`, so the missing-input abort is
dead), then — when backups are enabled — re-run
`validate_backup_settings` and abort before any pipeline phase if it
fails; otherwise run the phases in order. -/
def installRun (runStep : String → St → Bool) (env : Env)
    (inputs : List String) (fuel : Nat) (st : St) :
    (Except PyExc Bool) × List Event :=
  match get_user_inputs env inputs fuel st with
  | (.error e, tr) => (.error e, tr)
  | (.ok (st1, ok1, ins1), tr1) =>
    if !ok1 then (.ok false, tr1)
    else if st1.enable_backups then
      match validate_backup_settings ins1 fuel st1 with
      | (.error e, tr2) => (.error e, tr1 ++ tr2)
      | (.ok (st2, ok2, _), tr2) =>
        if !ok2 then (.ok false, tr1 ++ tr2)
        else
          let (b, tr3) := runSteps runStep st2 installSteps
          (.ok b, tr1 ++ tr2 ++ tr3)
    else
      let (b, tr3) := runSteps runStep st1 installSteps
      (.ok b, tr1 ++ tr3)

/-! ## `install_dependencies` and `configure_web_server` -/

/-- The dependency-installation command of `install_dependencies`
(install.py lines 376-396): the fixed package list, extended with the
backup tools when backups are enabled, joined into one `apt-get`
invocation. -/
def dependenciesCmd (enableBackups : Bool) : String :=
  "apt-get install -y apt-transport-https ca-certificates curl software-properties-common python3-pip python3-full python3-venv nginx certbot python3-certbot-nginx git"
    ++ (if enableBackups then " borgbackup rclone fuse" else "")

/-- Extract `VERSION_CODENAME` from `/etc/os-release` text
(install.py lines 465-477): first line starting with
`VERSION_CODENAME=`, taking the text after the first `=` with
surrounding quote characters stripped; `"focal"` when absent or
empty. -/
def codenameFromOsRelease (txt : String) : String :=
  match (splitOnChar '\n' txt.data).find?
      (fun l => "VERSION_CODENAME=".data.isPrefixOf l) with
  | none => "focal"
  | some l =>
    let v := pyStripChars (fun c => c = '"' || c = Char.ofNat 39)
      ((splitOnChar '=' l).getD 1 [])
    if v = [] then "focal" else String.mk v

/-- The Docker-installation tail shared verbatim by
`check_system_requirements` and `install_dependencies`
(install.py lines 450-499): GPG key, codename detection with
`/etc/os-release` fallback, repository, update, install, service
start/enable.  `run_command` never raises, so every `except` arm is
dead and the block always completes. -/
def installDockerBlock (env : Env) : List Event :=
  let tr0 := [Event.cmd "curl -fsSL https://download.docker.com/linux/ubuntu/gpg | apt-key add -"]
  let lsbCmd := "lsb_release -cs"
  let (cs, cout) := runCmdTotal (env lsbCmd)
  let tr1 := tr0 ++ [Event.cmd lsbCmd]
  let (codename, tr2) :=
    if cs && pyStrip cout ≠ "" then (pyStrip cout, tr1)
    else
      let osCmd := "cat /etc/os-release"
      let (os, oout) := runCmdTotal (env osCmd)
      (if os then codenameFromOsRelease oout else "focal",
       tr1 ++ [Event.cmd osCmd])
  tr2 ++
    [Event.cmd ("add-apt-repository " ++ sQuote ++
       "deb [arch=amd64] https://download.docker.com/linux/ubuntu " ++
       codename ++ " stable" ++ sQuote),
     Event.cmd "apt-get update -y",
     Event.cmd "apt-get install -y docker-ce docker-ce-cli containerd.io",
     Event.cmd "systemctl start docker",
     Event.cmd "systemctl enable docker"]

/-- `HorillaInstaller.install_dependencies` (install.py lines 348-502).
The apt-lock probe wraps `run_command` in `try:`/`except:`; since
`run_command` cannot raise, the body continues past the probe
unconditionally, printing `"APT is currently locked by another
process."` and — unless `--force-continue` is set — returning `False`,
regardless of what `lsof` reported.  With `--force-continue` the
function proceeds through update, dependency installation and the
Docker section (whose own `except` arms are equally dead, including the
direct-download fallback for Docker Compose) and returns `True`. -/
def install_dependencies (env : Env) (st : St) : Bool × List Event :=
  let lockCmd := "lsof /var/lib/dpkg/lock-frontend"
  let _ := runCmdTotal (env lockCmd)
  let tr0 : List Event :=
    [.cmd lockCmd, .print "APT is currently locked by another process."]
  if !st.force_continue then (false, tr0)
  else
    let tr1 := tr0 ++ [Event.print "Continuing anyway as --force-continue is set.",
                       Event.cmd "apt-get update -y",
                       Event.cmd (dependenciesCmd st.enable_backups)]
    let dockerCmd := "docker --version"
    let (dockerOk, _) := runCmdTotal (env dockerCmd)
    let tr2 := tr1 ++ [Event.cmd dockerCmd]
    let (dockerInstalled, tr3) :=
      if dockerOk then (true, tr2)
      else
        let composeCmd := "apt-get install -y docker-compose"
        let (composeOk, _) := runCmdTotal (env composeCmd)
        let tr := tr2 ++ [Event.cmd composeCmd]
        if composeOk then (false, tr)
        else
          (false, tr ++
            [Event.cmd "python3 -m venv /root/horilla_venv",
             Event.cmd "/root/horilla_venv/bin/pip install --upgrade pip",
             Event.cmd "/root/horilla_venv/bin/pip install docker-compose",
             Event.cmd "ln -sf /root/horilla_venv/bin/docker-compose /usr/local/bin/docker-compose"])
    if dockerInstalled then (true, tr3)
    else (true, tr3 ++ installDockerBlock env)

/-- `HorillaInstaller.configure_web_server` (install.py lines
1147-1200): unless `--force-no-ssl` is set, check for certbot
(installing it if absent) and request a certificate for `self.domain`
with `certbot --nginx` — there is no `.nip.io` exemption in this phase
— then, on success, add an HTTPS redirect when the site file exists.
It returns `True` on every path (the `except` arm is dead because
`run_command` never raises). -/
def configure_web_server (env : Env) (st : St) : Bool × List Event :=
  if st.force_no_ssl then (true, [])
  else
    let verCmd := "certbot --version"
    let (cbOk, _) := runCmdTotal (env verCmd)
    let tr0 := [Event.cmd verCmd]
    let tr1 :=
      if cbOk then tr0
      else tr0 ++ [Event.cmd "apt-get update",
                   Event.cmd "apt-get install -y certbot python3-certbot-nginx"]
    let certCmd := "certbot --nginx -d " ++ pyShowOpt st.domain ++
      " --email " ++ st.email ++ " --agree-tos --non-interactive"
    let (certOk, _) := runCmdTotal (env certCmd)
    let tr2 := tr1 ++ [Event.cmd certCmd]
    if !certOk then (true, tr2 ++ [.print "Continuing with HTTP only."])
    else
      let nginxConf := "/etc/nginx/sites-available/" ++ pyShowOpt st.domain
      let testCmd := "test -f " ++ nginxConf
      let (tfOk, _) := runCmdTotal (env testCmd)
      let tr3 := tr2 ++ [Event.cmd testCmd]
      if tfOk then
        let sedCmd := "grep -q " ++ sQuote ++ "return 301 https" ++ sQuote ++
          " " ++ nginxConf ++ " || sed -i " ++ sQuote ++
          "/listen 80;/a\\    return 301 https://$host$request_uri;" ++
          sQuote ++ " " ++ nginxConf
        (true, tr3 ++ [Event.cmd sedCmd, Event.cmd "systemctl reload nginx"])
      else (true, tr3)

/-- `main` (install.py lines 1902-1918): force non-interactive and
force-continue when stdin is not a TTY, construct the installer (whose
`__init__` may `sys.exit(1)`), run it, and turn the boolean result into
the process exit code.  An uncaught exception propagates as the
`.error` case. -/
def mainRun (runStep : String → St → Bool) (env : Env) (args : Args)
    (stdinTTY stdoutTTY : Bool) (euid : Nat) (cfg : Option SavedConfig)
    (inputs : List String) (fuel : Nat) : (Except PyExc Nat) × List Event :=
  let args := if !stdinTTY then
      { args with non_interactive := true, force_continue := true }
    else args
  match horillaInit args stdoutTTY euid cfg with
  | .error code => (.ok code, [])
  | .ok st =>
    match installRun runStep env inputs fuel st with
    | (.error e, tr) => (.error e, tr)
    | (.ok b, tr) => (.ok (if b then 0 else 1), tr)

/-! ## The package-manager lock-retry loop

The specification (section 4.3 and the section 8 scenarios) describes a
bounded retry loop for package-manager lock contention.  No such loop
exists in `src/install.py` — its `install_dependencies` handles the
lock with the single probe modelled above — so the loop is modelled
from the specification's words. -/

/-- Outcome of one installation attempt, as the retry policy
distinguishes them: success, a recognizable "resource temporarily
locked" failure, or any other failure. -/
inductive AttemptResult where
  | success
  | lockError
  | otherFailure

/-- Result of the retry loop: whether it succeeded, how many attempts
were made, and how many inter-attempt delays (each of length
`retry_delay`) were slept. -/
structure RetryOutcome where
  ok : Bool
  attempts : Nat
  delays : Nat
deriving DecidableEq

/-- Modelled from the spec: the package-manager lock-retry loop of
section 4.3, which is absent from `src/install.py` (it lives in the
repository's other installer variants).  "When an installation command
fails with a recognizable resource-locked signature ... retry with a
fixed backoff up to a bounded attempt count."  `attemptOutcome n` is
the outcome of attempt number `n` (0-based); `remaining` counts the
attempts still allowed.  A lock failure on the last allowed attempt is
not followed by a further delay. -/
def lockRetryAux (attemptOutcome : Nat → AttemptResult) :
    Nat → Nat → Nat → RetryOutcome
  | 0, done, delays => ⟨false, done, delays⟩
  | remaining + 1, done, delays =>
    match attemptOutcome done with
    | .success => ⟨true, done + 1, delays⟩
    | .lockError =>
      if remaining = 0 then ⟨false, done + 1, delays⟩
      else lockRetryAux attemptOutcome remaining (done + 1) (delays + 1)
    | .otherFailure => ⟨false, done + 1, delays⟩

/-- Modelled from the spec: run the lock-retry loop with at most
`maxRetries` attempts. -/
def lockRetryLoop (attemptOutcome : Nat → AttemptResult)
    (maxRetries : Nat) : RetryOutcome :=
  lockRetryAux attemptOutcome maxRetries 0 0

/-! ## Declarative characterizations used by the claims -/

/-- Interleave `sep` between the parts (the inverse of
`splitOnChar`). -/
def joinSep (sep : Char) : List (List Char) → List Char
  | [] => []
  | [x] => x
  | x :: y :: rest => x ++ sep :: joinSep sep (y :: rest)

/-- A non-final hostname label, stated declaratively from the spec's
grammar ("dot-separated labels, alphanumeric with interior hyphens,
bounded label length"): one alphanumeric character, or 2-63 characters
starting and ending alphanumeric with `[a-zA-Z0-9-]` in between. -/
def LabelProp (w : List Char) : Prop :=
  (∃ c, w = [c] ∧ isAlnumChar c = true) ∨
  (∃ c m d, w = c :: m ++ [d] ∧ isAlnumChar c = true ∧ isAlnumChar d = true ∧
    (∀ x ∈ m, isLabelChar x = true) ∧ m.length ≤ 61)

/-- The final hostname label: as `LabelProp` but at least two
characters. -/
def FinalLabelProp (w : List Char) : Prop :=
  ∃ c m d, w = c :: m ++ [d] ∧ isAlnumChar c = true ∧ isAlnumChar d = true ∧
    (∀ x ∈ m, isLabelChar x = true) ∧ m.length ≤ 61

/-- The hostname grammar: at least two dot-separated labels, the last
of which is a final label. -/
def HostnameProp (cs : List Char) : Prop :=
  ∃ labs f, cs = joinSep '.' (labs ++ [f]) ∧ labs ≠ [] ∧
    (∀ l ∈ labs, LabelProp l) ∧ FinalLabelProp f

/-- The `.nip.io` test form as `validate_domain` actually accepts it:
the text before the first `'.nip.io'` decomposes into exactly four
dot-separated octets, each accepted by `int()` with value 0-255. -/
def NipProp (cs : List Char) : Prop :=
  ∃ o1 o2 o3 o4, takeBeforeFirst nipSuffix cs = joinSep '.' [o1, o2, o3, o4] ∧
    octetOk o1 = true ∧ octetOk o2 = true ∧ octetOk o3 = true ∧
    octetOk o4 = true

/-- The amended characterization of `validate_domain` for claim C7:
strings ending in `'.nip.io'` are judged solely by the octet rule — the
hostname grammar is never consulted for them — and every other string
is accepted exactly when it (or the string minus one trailing newline,
per Python's `$`) is in the hostname grammar. -/
def AmendedDomainSpec (s : String) : Prop :=
  (nipSuffix.isSuffixOf s.data = true ∧ NipProp s.data) ∨
  (nipSuffix.isSuffixOf s.data = false ∧
    (HostnameProp s.data ∨ ∃ cs, s.data = cs ++ ['\n'] ∧ HostnameProp cs))

/-! ## Concrete fixtures for the claims -/

/-- An environment in which every external command succeeds with empty
output. -/
def envAllOk : Env := fun _ => .completed 0 "" ""

/-- A full non-interactive invocation: all required parameters given by
flags, `--non-interactive` set. -/
def argsAllFlags : Args :=
  { domain := some "hrms.example.com", non_interactive := true }

/-- The state `__init__` produces from `argsAllFlags` (no saved
configuration, root). -/
def stAllFlags : St :=
  { domain := some "hrms.example.com", admin_username := "admin",
    admin_password := "Admin@123", email := "admin@example.com",
    install_dir := "/opt/horilla", force_continue := false,
    force_no_ssl := false, non_interactive := true, skip_upgrade := false,
    skip_root_check := false, enable_backups := false, s3_provider := none,
    s3_access_key := none, s3_secret_key := none, s3_region := "us-east-1",
    s3_bucket_name := none, backup_frequency := "1", is_tty := false }

/-- `--non-interactive` with the required `--domain` missing. -/
def argsNoDomain : Args := { non_interactive := true }

/-- The state `__init__` produces from `argsNoDomain`. -/
def stNoDomain : St := { stAllFlags with domain := none }

/-- A non-root invocation that asks to bypass the root check. -/
def argsSkipRoot : Args := { skip_root_check := true }

/-- A pipeline state whose domain is a well-formed `.nip.io` test
domain (four octets, accepted by `validate_domain`) and that did not
ask to skip SSL. -/
def stNipDomain : St := { stAllFlags with domain := some "1.2.3.4.nip.io" }

/-- The attempt outcomes of the spec's retry scenario: a lock error on
attempts 1 and 2, success on attempt 3. -/
def c2Scenario : Nat → AttemptResult :=
  fun n => if n < 2 then .lockError else .success

/-- The third server-IP probe command, as `detectServerIp` issues it. -/
def cmd3Txt : String := "hostname -I | awk " ++ sQuote ++ "\x7bprint $1\x7d" ++ sQuote

/-- An interactive answer sequence that enables backups with provider 3
(Backblaze B2, which needs no region prompt), supplies credentials and a
bucket, and accepts every default — in particular the default backup
frequency menu choice, stored as `"1"`. -/
def c9Inputs : List String :=
  ["", "", "", "", "", "yes", "3", "AK", "SK", "bucket", "", ""]

/-- The state `get_user_inputs` produces from `stAllFlags` on
`c9Inputs`: backups enabled, numeric backup frequency `"1"`. -/
def c9St1 : St :=
  { domain := some "hrms.example.com", admin_username := "admin",
    admin_password := "Admin@123", email := "admin@example.com",
    install_dir := "/opt/horilla", force_continue := false,
    force_no_ssl := false, non_interactive := true, skip_upgrade := false,
    skip_root_check := false, enable_backups := true, s3_provider := some "3",
    s3_access_key := some "AK", s3_secret_key := some "SK",
    s3_region := "us-east-1", s3_bucket_name := some "bucket",
    backup_frequency := "1", is_tty := false }

/-- The trace `get_user_inputs` produces from `stAllFlags` on
`c9Inputs`: the three IP probes, ten prompts, and the config save. -/
def c9Tr1 : List Event :=
  [.cmd "curl -s ifconfig.me", .cmd "curl -s ipv4.icanhazip.com",
   .cmd cmd3Txt,
   .prompt "\nDomain name [hrms.example.com]: ",
   .prompt "Email address for SSL certificates [admin@example.com]: ",
   .prompt "Admin username [admin]: ",
   .prompt "Admin password [Admin@123]: ",
   .prompt "Installation directory [/opt/horilla]: ",
   .prompt "\nEnable automated backups? (yes/no) [no]: ",
   .prompt providerPromptTxt, .prompt accessKeyPromptTxt,
   .prompt secretKeyPromptTxt, .prompt bucketPromptTxt,
   .prompt freqPromptTxt, .save]

/-- No pipeline phase appears in a trace. -/
def noStep (tr : List Event) : Prop := ∀ e ∈ tr, isStepEvent e = false

/-! ## Theorems: regex matcher correctness -/

theorem rmatch_empt_elim {w : List Char} (h : RMatch .empt w) : False := by
  cases h

theorem rmatch_eps_elim {w : List Char} (h : RMatch .eps w) : w = [] := by
  cases h; rfl

theorem rmatch_cls_elim {p : Char → Bool} {w : List Char}
    (h : RMatch (.cls p) w) : ∃ c, w = [c] ∧ p c = true := by
  cases h with
  | cls hc => exact ⟨_, rfl, hc⟩

theorem rmatch_cat_elim {a b : RE} {w : List Char} (h : RMatch (.cat a b) w) :
    ∃ u v, w = u ++ v ∧ RMatch a u ∧ RMatch b v := by
  cases h with
  | cat hu hv => exact ⟨_, _, rfl, hu, hv⟩

theorem rmatch_alt_elim {a b : RE} {w : List Char} (h : RMatch (.alt a b) w) :
    RMatch a w ∨ RMatch b w := by
  cases h with
  | altL h => exact Or.inl h
  | altR h => exact Or.inr h

theorem rmatch_mkCat {a b : RE} {w : List Char} :
    RMatch (RE.mkCat a b) w ↔ RMatch (.cat a b) w := by
  unfold RE.mkCat
  split
  · constructor
    · intro h; exact absurd h rmatch_empt_elim
    · intro h
      obtain ⟨u, v, _, hu, _⟩ := rmatch_cat_elim h
      exact absurd hu rmatch_empt_elim
  · constructor
    · intro h
      exact (List.nil_append w) ▸ RMatch.cat RMatch.eps h
    · intro h
      obtain ⟨u, v, huv, hu, hv⟩ := rmatch_cat_elim h
      have := rmatch_eps_elim hu
      subst this
      simpa [huv]
  · constructor
    · intro h; exact absurd h rmatch_empt_elim
    · intro h
      obtain ⟨u, v, _, _, hv⟩ := rmatch_cat_elim h
      exact absurd hv rmatch_empt_elim
  · constructor
    · intro h
      exact (List.append_nil w) ▸ RMatch.cat h RMatch.eps
    · intro h
      obtain ⟨u, v, huv, hu, hv⟩ := rmatch_cat_elim h
      have := rmatch_eps_elim hv
      subst this
      simpa [huv]
  · exact Iff.rfl

theorem rmatch_mkAlt {a b : RE} {w : List Char} :
    RMatch (RE.mkAlt a b) w ↔ RMatch (.alt a b) w := by
  unfold RE.mkAlt
  split
  · constructor
    · intro h; exact RMatch.altR h
    · intro h
      rcases rmatch_alt_elim h with h | h
      · exact absurd h rmatch_empt_elim
      · exact h
  · constructor
    · intro h; exact RMatch.altL h
    · intro h
      rcases rmatch_alt_elim h with h | h
      · exact h
      · exact absurd h rmatch_empt_elim
  · exact Iff.rfl

theorem nullable_iff {r : RE} : r.nullable = true ↔ RMatch r [] := by
  induction r with
  | empt => simpa [RE.nullable] using fun h => rmatch_empt_elim h
  | eps => simpa [RE.nullable] using RMatch.eps
  | cls p =>
      simp only [RE.nullable]
      constructor
      · intro h; cases h
      · intro h; obtain ⟨c, hc, _⟩ := rmatch_cls_elim h; cases hc
  | cat a b iha ihb =>
      simp only [RE.nullable, Bool.and_eq_true]
      constructor
      · rintro ⟨ha, hb⟩
        exact (List.nil_append ([] : List Char)) ▸
          RMatch.cat (iha.mp ha) (ihb.mp hb)
      · intro h
        obtain ⟨u, v, huv, hu, hv⟩ := rmatch_cat_elim h
        rcases List.append_eq_nil.mp huv.symm with ⟨hu0, hv0⟩
        subst hu0; subst hv0
        exact ⟨iha.mpr hu, ihb.mpr hv⟩
  | alt a b iha ihb =>
      simp only [RE.nullable, Bool.or_eq_true]
      constructor
      · rintro (h | h)
        · exact RMatch.altL (iha.mp h)
        · exact RMatch.altR (ihb.mp h)
      · intro h
        rcases rmatch_alt_elim h with h | h
        · exact Or.inl (iha.mpr h)
        · exact Or.inr (ihb.mpr h)
  | star a ih =>
      simp only [RE.nullable, true_iff]
      exact RMatch.starNil

theorem rmatch_star_cons_elim {a : RE} {c : Char} {w : List Char}
    (h : RMatch (.star a) (c :: w)) :
    ∃ u v, w = u ++ v ∧ RMatch a (c :: u) ∧ RMatch (.star a) v := by
  generalize hr : RE.star a = r at h
  generalize hw : c :: w = w0 at h
  induction h with
  | eps => cases hr
  | cls _ => cases hr
  | cat _ _ => cases hr
  | altL _ => cases hr
  | altR _ => cases hr
  | starNil => cases hw
  | starCons hu hv ihu ihv =>
      cases hr
      rename_i u v
      cases u with
      | nil => exact ihv rfl hw
      | cons c0 u0 =>
          simp only [List.cons_append] at hw
          cases hw
          exact ⟨u0, v, rfl, hu, hv⟩

theorem deriv_iff {r : RE} {c : Char} {w : List Char} :
    RMatch (r.deriv c) w ↔ RMatch r (c :: w) := by
  induction r generalizing w with
  | empt =>
      simp only [RE.deriv]
      exact ⟨fun h => absurd h rmatch_empt_elim, fun h => absurd h rmatch_empt_elim⟩
  | eps =>
      simp only [RE.deriv]
      constructor
      · intro h; exact absurd h rmatch_empt_elim
      · intro h; cases h
  | cls p =>
      simp only [RE.deriv]
      by_cases hp : p c = true
      · rw [if_pos hp]
        constructor
        · intro h; rw [rmatch_eps_elim h]; exact RMatch.cls hp
        · intro h
          obtain ⟨c0, hc0, _⟩ := rmatch_cls_elim h
          cases hc0; exact RMatch.eps
      · rw [if_neg hp]
        constructor
        · intro h; exact absurd h rmatch_empt_elim
        · intro h
          obtain ⟨c0, hc0, hpc⟩ := rmatch_cls_elim h
          cases hc0; exact absurd hpc hp
  | cat a b iha ihb =>
      simp only [RE.deriv]
      by_cases hn : a.nullable = true
      · rw [if_pos hn]
        constructor
        · intro h
          rcases rmatch_alt_elim (rmatch_mkAlt.mp h) with h | h
          · obtain ⟨u, v, huv, hu, hv⟩ := rmatch_cat_elim (rmatch_mkCat.mp h)
            subst huv
            exact (List.cons_append c u v) ▸ RMatch.cat (iha.mp hu) hv
          · have : RMatch a [] := nullable_iff.mp hn
            exact (List.nil_append (c :: w)) ▸ RMatch.cat this (ihb.mp h)
        · intro h
          obtain ⟨u, v, huv, hu, hv⟩ := rmatch_cat_elim h
          cases u with
          | nil =>
              simp only [List.nil_append] at huv
              subst huv
              exact rmatch_mkAlt.mpr (RMatch.altR (ihb.mpr hv))
          | cons c0 u0 =>
              simp only [List.cons_append] at huv
              cases huv
              exact rmatch_mkAlt.mpr (RMatch.altL
                (rmatch_mkCat.mpr (RMatch.cat (iha.mpr hu) hv)))
      · rw [if_neg hn]
        constructor
        · intro h
          obtain ⟨u, v, huv, hu, hv⟩ := rmatch_cat_elim (rmatch_mkCat.mp h)
          subst huv
          exact (List.cons_append c u v) ▸ RMatch.cat (iha.mp hu) hv
        · intro h
          obtain ⟨u, v, huv, hu, hv⟩ := rmatch_cat_elim h
          cases u with
          | nil =>
              exact absurd (nullable_iff.mpr hu) hn
          | cons c0 u0 =>
              simp only [List.cons_append] at huv
              cases huv
              exact rmatch_mkCat.mpr (RMatch.cat (iha.mpr hu) hv)
  | alt a b iha ihb =>
      simp only [RE.deriv]
      constructor
      · intro h
        rcases rmatch_alt_elim (rmatch_mkAlt.mp h) with h | h
        · exact RMatch.altL (iha.mp h)
        · exact RMatch.altR (ihb.mp h)
      · intro h
        rcases rmatch_alt_elim h with h | h
        · exact rmatch_mkAlt.mpr (RMatch.altL (iha.mpr h))
        · exact rmatch_mkAlt.mpr (RMatch.altR (ihb.mpr h))
  | star a ih =>
      simp only [RE.deriv]
      constructor
      · intro h
        obtain ⟨u, v, huv, hu, hv⟩ := rmatch_cat_elim (rmatch_mkCat.mp h)
        subst huv
        exact (List.cons_append c u v) ▸ RMatch.starCons (ih.mp hu) hv
      · intro h
        obtain ⟨u, v, hw, hu, hv⟩ := rmatch_star_cons_elim h
        subst hw
        exact rmatch_mkCat.mpr (RMatch.cat (ih.mpr hu) hv)

/-- Correctness of the derivative matcher against the declarative
semantics. -/
theorem matchRE_iff {w : List Char} {r : RE} :
    matchRE r w = true ↔ RMatch r w := by
  induction w generalizing r with
  | nil => simpa [matchRE] using nullable_iff
  | cons c w ih => simpa [matchRE] using (ih.trans deriv_iff)

/-! ## Theorems: splitting and joining on a separator -/

theorem splitOnChar_ne_nil (sep : Char) (l : List Char) :
    splitOnChar sep l ≠ [] := by
  cases l with
  | nil => simp [splitOnChar]
  | cons c rest =>
    simp only [splitOnChar]
    split
    · simp
    · split <;> simp

theorem joinSep_splitOnChar (sep : Char) (l : List Char) :
    joinSep sep (splitOnChar sep l) = l := by
  induction l with
  | nil => simp [splitOnChar, joinSep]
  | cons c rest ih =>
    simp only [splitOnChar]
    by_cases hc : c = sep
    · rw [if_pos hc]
      cases h : splitOnChar sep rest with
      | nil => exact absurd h (splitOnChar_ne_nil sep rest)
      | cons a t =>
        rw [h] at ih
        subst hc
        show [] ++ c :: joinSep c (a :: t) = c :: rest
        simpa using ih
    · rw [if_neg hc]
      cases h : splitOnChar sep rest with
      | nil => exact absurd h (splitOnChar_ne_nil sep rest)
      | cons a t =>
        rw [h] at ih
        show joinSep sep ((c :: a) :: t) = c :: rest
        cases t with
        | nil =>
          simp only [joinSep] at ih ⊢
          simp [ih]
        | cons b t2 =>
          simp only [joinSep] at ih ⊢
          simp [← ih]

theorem splitOnChar_sep_free (sep : Char) (l : List Char) :
    ∀ p ∈ splitOnChar sep l, sep ∉ p := by
  induction l with
  | nil =>
    intro p hp
    simp [splitOnChar] at hp
    simp [hp]
  | cons c rest ih =>
    intro p hp
    simp only [splitOnChar] at hp
    by_cases hc : c = sep
    · rw [if_pos hc] at hp
      rcases List.mem_cons.mp hp with rfl | hp2
      · simp
      · exact ih p hp2
    · rw [if_neg hc] at hp
      cases h : splitOnChar sep rest with
      | nil => exact absurd h (splitOnChar_ne_nil sep rest)
      | cons a t =>
        rw [h] at hp ih
        have hp2 : p ∈ (c :: a) :: t := hp
        rcases List.mem_cons.mp hp2 with rfl | hp3
        · intro hmem
          rcases List.mem_cons.mp hmem with rfl | hmem2
          · exact hc rfl
          · exact ih a (by simp) hmem2
        · exact ih p (by simp [hp3])

theorem splitOnChar_of_not_mem {sep : Char} {l : List Char} (h : sep ∉ l) :
    splitOnChar sep l = [l] := by
  induction l with
  | nil => simp [splitOnChar]
  | cons c rest ih =>
    have hc : ¬ c = sep := fun e => h (by simp [e])
    have hrest : sep ∉ rest := fun m => h (List.mem_cons_of_mem _ m)
    simp only [splitOnChar, if_neg hc, ih hrest]

theorem splitOnChar_append {sep : Char} {a m : List Char} (h : sep ∉ a) :
    splitOnChar sep (a ++ sep :: m) = a :: splitOnChar sep m := by
  induction a with
  | nil => simp [splitOnChar]
  | cons c arest ih =>
    have hc : ¬ c = sep := fun e => h (by simp [e])
    have harest : sep ∉ arest := fun hm => h (List.mem_cons_of_mem _ hm)
    show (if c = sep then [] :: splitOnChar sep (arest ++ sep :: m)
          else match splitOnChar sep (arest ++ sep :: m) with
            | [] => [[c]]
            | h :: t => (c :: h) :: t) = (c :: arest) :: splitOnChar sep m
    rw [if_neg hc, ih harest]

theorem splitOnChar_joinSep {sep : Char} : ∀ {parts : List (List Char)},
    parts ≠ [] → (∀ p ∈ parts, sep ∉ p) →
    splitOnChar sep (joinSep sep parts) = parts := by
  intro parts
  induction parts with
  | nil => intro hne _; exact absurd rfl hne
  | cons p rest ih =>
    intro _ hfree
    cases rest with
    | nil => simpa [joinSep] using splitOnChar_of_not_mem (hfree p (by simp))
    | cons q rest2 =>
      have hj : joinSep sep (p :: q :: rest2) = p ++ sep :: joinSep sep (q :: rest2) := rfl
      rw [hj, splitOnChar_append (hfree p (by simp))]
      rw [ih (by simp) (fun x hx => hfree x (List.mem_cons_of_mem _ hx))]

/-! ## Theorems: character-class repetition patterns -/

theorem rmatch_star_cls {p : Char → Bool} {w : List Char}
    (h : ∀ c ∈ w, p c = true) : RMatch (.star (.cls p)) w := by
  induction w with
  | nil => exact RMatch.starNil
  | cons c rest ih =>
    have h1 : RMatch (.cls p) [c] := RMatch.cls (h c (by simp))
    have h2 := ih (fun x hx => h x (by simp [hx]))
    simpa using RMatch.starCons h1 h2

theorem rmatch_star_cls_inv {p : Char → Bool} : ∀ (w : List Char),
    RMatch (.star (.cls p)) w → ∀ c ∈ w, p c = true := by
  intro w
  induction w with
  | nil => intro _ c hc; simp at hc
  | cons c rest ih =>
    intro h x hx
    obtain ⟨u, v, hw, hu, hv⟩ := rmatch_star_cons_elim h
    obtain ⟨c0, hc0, hp⟩ := rmatch_cls_elim hu
    injection hc0 with h1 h2
    subst h1
    subst h2
    simp only [List.nil_append] at hw
    subst hw
    rcases List.mem_cons.mp hx with rfl | hx2
    · exact hp
    · exact ih hv x hx2

theorem rmatch_plus_cls {p : Char → Bool} {w : List Char}
    (hne : w ≠ []) (h : ∀ c ∈ w, p c = true) :
    RMatch (rePlus (.cls p)) w := by
  cases w with
  | nil => exact absurd rfl hne
  | cons c rest =>
    have h1 : RMatch (.cls p) [c] := RMatch.cls (h c (by simp))
    have h2 : RMatch (.star (.cls p)) rest :=
      rmatch_star_cls (fun x hx => h x (by simp [hx]))
    simpa [rePlus] using RMatch.cat h1 h2

theorem rmatch_plus_cls_inv {p : Char → Bool} {w : List Char}
    (h : RMatch (rePlus (.cls p)) w) :
    w ≠ [] ∧ ∀ c ∈ w, p c = true := by
  obtain ⟨u, v, hw, hu, hv⟩ := rmatch_cat_elim h
  obtain ⟨c0, hc0, hp⟩ := rmatch_cls_elim hu
  subst hc0
  subst hw
  refine ⟨by simp, ?_⟩
  intro x hx
  rcases List.mem_cons.mp hx with rfl | hx2
  · exact hp
  · exact rmatch_star_cls_inv v hv x hx2

theorem rmatch_repAtMost_iff {p : Char → Bool} : ∀ (n : Nat) (w : List Char),
    RMatch (reRepAtMost n (.cls p)) w ↔
      (w.length ≤ n ∧ ∀ c ∈ w, p c = true) := by
  intro n
  induction n with
  | zero =>
    intro w
    simp only [reRepAtMost]
    constructor
    · intro h
      rw [rmatch_eps_elim h]
      simp
    · rintro ⟨hl, _⟩
      have : w = [] := List.length_eq_zero.mp (Nat.le_zero.mp hl)
      subst this
      exact RMatch.eps
  | succ n ih =>
    intro w
    simp only [reRepAtMost]
    constructor
    · intro h
      rcases rmatch_alt_elim h with h | h
      · rw [rmatch_eps_elim h]; simp
      · obtain ⟨u, v, hw, hu, hv⟩ := rmatch_cat_elim h
        obtain ⟨c0, hc0, hp⟩ := rmatch_cls_elim hu
        subst hc0
        subst hw
        obtain ⟨hl, hall⟩ := (ih v).mp hv
        refine ⟨by simpa using Nat.succ_le_succ hl, ?_⟩
        intro x hx
        rcases List.mem_cons.mp hx with rfl | hx2
        · exact hp
        · exact hall x hx2
    · rintro ⟨hl, hall⟩
      cases w with
      | nil => exact RMatch.altL RMatch.eps
      | cons c rest =>
        have h1 : RMatch (.cls p) [c] := RMatch.cls (hall c (by simp))
        have h2 := (ih rest).mpr
          ⟨Nat.le_of_succ_le_succ (by simpa using hl),
           fun x hx => hall x (by simp [hx])⟩
        exact RMatch.altR (by simpa using RMatch.cat h1 h2)

theorem rmatch_label_iff {w : List Char} : RMatch labelRE w ↔ LabelProp w := by
  unfold labelRE LabelProp
  constructor
  · intro h
    obtain ⟨u, v, hw, hu, hv⟩ := rmatch_cat_elim h
    obtain ⟨c0, hc0, hp⟩ := rmatch_cls_elim hu
    subst hc0
    rcases rmatch_alt_elim hv with h2 | h2
    · rw [rmatch_eps_elim h2] at hw
      left
      exact ⟨c0, by simp [hw], hp⟩
    · obtain ⟨m, d1, hmv, hm, hd⟩ := rmatch_cat_elim h2
      obtain ⟨d0, hd0, hpd⟩ := rmatch_cls_elim hd
      subst hd0
      obtain ⟨hlen, hall⟩ := (rmatch_repAtMost_iff 61 m).mp hm
      right
      exact ⟨c0, m, d0, by simp [hw, hmv], hp, hpd, hall, hlen⟩
  · rintro (⟨c, rfl, hc⟩ | ⟨c, m, d, rfl, hc, hd, hall, hlen⟩)
    · simpa using RMatch.cat (RMatch.cls hc) (RMatch.altL RMatch.eps)
    · have hm := (rmatch_repAtMost_iff 61 m).mpr ⟨hlen, hall⟩
      have h1 := RMatch.cat hm (RMatch.cls hd)
      have h2 := RMatch.altR (a := RE.eps) h1
      simpa using RMatch.cat (RMatch.cls hc) h2

theorem rmatch_finalLabel_iff {w : List Char} :
    RMatch finalLabelRE w ↔ FinalLabelProp w := by
  unfold finalLabelRE FinalLabelProp
  constructor
  · intro h
    obtain ⟨u, v, hw, hu, hv⟩ := rmatch_cat_elim h
    obtain ⟨c0, hc0, hp⟩ := rmatch_cls_elim hu
    subst hc0
    obtain ⟨m, d1, hmv, hm, hd⟩ := rmatch_cat_elim hv
    obtain ⟨d0, hd0, hpd⟩ := rmatch_cls_elim hd
    subst hd0
    obtain ⟨hlen, hall⟩ := (rmatch_repAtMost_iff 61 m).mp hm
    exact ⟨c0, m, d0, by simp [hw, hmv], hp, hpd, hall, hlen⟩
  · rintro ⟨c, m, d, rfl, hc, hd, hall, hlen⟩
    have hm := (rmatch_repAtMost_iff 61 m).mpr ⟨hlen, hall⟩
    have h1 := RMatch.cat hm (RMatch.cls hd)
    simpa using RMatch.cat (RMatch.cls hc) h1

/-! ## Theorems: the hostname regex is the hostname grammar -/

theorem rmatch_star_chunks_of {a : RE} : ∀ {chunks : List (List Char)},
    (∀ u ∈ chunks, RMatch a u) → RMatch (.star a) chunks.flatten := by
  intro chunks
  induction chunks with
  | nil => intro _; simpa using RMatch.starNil
  | cons u rest ih =>
    intro h
    have h1 := h u (by simp)
    have h2 := ih (fun x hx => h x (by simp [hx]))
    simpa using RMatch.starCons h1 h2

theorem rmatch_star_to_chunks {a : RE} : ∀ (n : Nat) (w : List Char),
    w.length ≤ n → RMatch (.star a) w →
    ∃ chunks : List (List Char), w = chunks.flatten ∧ ∀ u ∈ chunks, RMatch a u := by
  intro n
  induction n with
  | zero =>
    intro w hw _
    have : w = [] := by cases w <;> simp_all
    exact ⟨[], by simp [this], by simp⟩
  | succ n ih =>
    intro w hw h
    cases w with
    | nil => exact ⟨[], by simp, by simp⟩
    | cons c w2 =>
      obtain ⟨u, v, hsplit, hu, hv⟩ := rmatch_star_cons_elim h
      have hvlen : v.length ≤ n := by
        subst hsplit
        simp only [List.length_cons, List.length_append] at hw
        omega
      obtain ⟨chunks, hj, hc⟩ := ih v hvlen hv
      refine ⟨(c :: u) :: chunks, by simp [hsplit, hj], ?_⟩
      intro x hx
      rcases List.mem_cons.mp hx with rfl | hx2
      · exact hu
      · exact hc x hx2

theorem joinSep_labels (f : List Char) : ∀ (labs : List (List Char)),
    joinSep '.' (labs ++ [f]) = (labs.map (fun l => l ++ ['.'])).flatten ++ f := by
  intro labs
  induction labs with
  | nil => simp [joinSep]
  | cons x rest ih =>
    cases rest with
    | nil => simp [joinSep]
    | cons y r2 =>
      show x ++ '.' :: joinSep '.' ((y :: r2) ++ [f]) = _
      rw [ih]
      simp

theorem chunks_to_labs : ∀ (chunks : List (List Char)),
    (∀ ch ∈ chunks, ∃ lab, ch = lab ++ ['.'] ∧ LabelProp lab) →
    ∃ labs : List (List Char),
      chunks.flatten = (labs.map (fun l => l ++ ['.'])).flatten ∧
      labs.length = chunks.length ∧ ∀ l ∈ labs, LabelProp l := by
  intro chunks
  induction chunks with
  | nil => intro _; exact ⟨[], by simp, by simp, by simp⟩
  | cons ch rest ih =>
    intro h
    obtain ⟨lab, hch, hlab⟩ := h ch (by simp)
    obtain ⟨labs, hj, hlen, hall⟩ := ih (fun x hx => h x (by simp [hx]))
    refine ⟨lab :: labs, by simp [hch, hj], by simp [hlen], ?_⟩
    intro l hl
    rcases List.mem_cons.mp hl with rfl | hl2
    · exact hlab
    · exact hall l hl2

theorem rmatch_labelDot_elim {ch : List Char}
    (h : RMatch (.cat labelRE (.cls (fun c => c = '.'))) ch) :
    ∃ lab, ch = lab ++ ['.'] ∧ LabelProp lab := by
  obtain ⟨u, v, hw, hu, hv⟩ := rmatch_cat_elim h
  obtain ⟨c0, hc0, hp⟩ := rmatch_cls_elim hv
  have : c0 = '.' := by simpa using hp
  subst this
  subst hc0
  exact ⟨u, hw, rmatch_label_iff.mp hu⟩

theorem rmatch_domainRE_iff {cs : List Char} :
    RMatch domainRE cs ↔ HostnameProp cs := by
  unfold domainRE HostnameProp
  constructor
  · intro h
    obtain ⟨u, f, hw, hu, hf⟩ := rmatch_cat_elim h
    obtain ⟨u1, u2, hu12, hu1, hu2⟩ := rmatch_cat_elim hu
    obtain ⟨chunks, hj, hch⟩ := rmatch_star_to_chunks u2.length u2 le_rfl hu2
    have hall : ∀ ch ∈ u1 :: chunks, ∃ lab, ch = lab ++ ['.'] ∧ LabelProp lab := by
      intro ch hc
      rcases List.mem_cons.mp hc with rfl | hc2
      · exact rmatch_labelDot_elim hu1
      · exact rmatch_labelDot_elim (hch ch hc2)
    obtain ⟨labs, hlj, hlen, hlabs⟩ := chunks_to_labs (u1 :: chunks) hall
    refine ⟨labs, f, ?_, ?_, hlabs, rmatch_finalLabel_iff.mp hf⟩
    · rw [joinSep_labels, ← hlj]
      simp [hw, hu12, hj]
    · intro hnil
      rw [hnil] at hlen
      simp at hlen
  · rintro ⟨labs, f, rfl, hne, hlabs, hf⟩
    rw [joinSep_labels]
    have hch : ∀ ch ∈ labs.map (fun l => l ++ ['.']),
        RMatch (.cat labelRE (.cls (fun c => c = '.'))) ch := by
      intro ch hc
      obtain ⟨lab, hm, rfl⟩ := List.mem_map.mp hc
      have h1 : RMatch labelRE lab := rmatch_label_iff.mpr (hlabs lab hm)
      have h2 : RMatch (.cls (fun c => c = '.')) ['.'] := RMatch.cls (by simp)
      exact RMatch.cat h1 h2
    have hfinal : RMatch finalLabelRE f := rmatch_finalLabel_iff.mpr hf
    cases hl : labs.map (fun l => l ++ ['.']) with
    | nil =>
      rw [hl] at hch
      have : labs = [] := by
        cases labs with
        | nil => rfl
        | cons a b => simp at hl
      exact absurd this hne
    | cons ch1 chrest =>
      rw [hl] at hch
      have h1 : RMatch (.cat labelRE (.cls (fun c => c = '.'))) ch1 :=
        hch ch1 (by simp)
      have h2 : RMatch (.star (.cat labelRE (.cls (fun c => c = '.')))) chrest.flatten :=
        rmatch_star_chunks_of (fun x hx => hch x (by simp [hx]))
      have h3 := RMatch.cat h1 h2
      have h4 : RMatch (rePlus (.cat labelRE (.cls (fun c => c = '.'))))
          (ch1 :: chrest).flatten := by
        simpa [rePlus] using h3
      have := RMatch.cat h4 hfinal
      simpa [hl] using this

/-! ## Theorems: octets contain no dot; the `.nip.io` branch -/

theorem mem_dropWhile_of_not {p : Char → Bool} {c : Char} : ∀ {l : List Char},
    p c = false → c ∈ l → c ∈ l.dropWhile p := by
  intro l
  induction l with
  | nil => intro _ h; simp at h
  | cons a rest ih =>
    intro hc h
    simp only [List.dropWhile]
    cases hpa : p a with
    | true =>
      rcases List.mem_cons.mp h with rfl | h2
      · rw [hpa] at hc; cases hc
      · exact ih hc h2
    | false => exact h

theorem mem_pyStripChars {p : Char → Bool} {c : Char} {l : List Char}
    (hc : p c = false) (h : c ∈ l) : c ∈ pyStripChars p l := by
  unfold pyStripChars
  rw [List.mem_reverse]
  exact mem_dropWhile_of_not hc (by rw [List.mem_reverse]; exact mem_dropWhile_of_not hc h)

theorem pyDigitsAux_dot_none : ∀ (n : Nat) (l : List Char) (acc : Nat),
    l.length ≤ n → '.' ∈ l → pyDigitsAux acc l = none := by
  intro n
  induction n with
  | zero =>
    intro l acc hl hm
    have : l = [] := List.length_eq_zero.mp (Nat.le_zero.mp hl)
    subst this
    simp at hm
  | succ n ih =>
    intro l acc hl hm
    cases l with
    | nil => simp at hm
    | cons c rest =>
      unfold pyDigitsAux
      by_cases hd : isAsciiDigit c = true
      · rw [if_pos hd]
        have hne : ('.' : Char) ≠ c := by
          intro e
          rw [← e] at hd
          exact absurd hd (by decide)
        have hmem : '.' ∈ rest := by
          rcases List.mem_cons.mp hm with h | h
          · exact absurd h hne
          · exact h
        exact ih rest _ (by simpa using Nat.le_of_succ_le_succ hl) hmem
      · rw [if_neg hd]
        by_cases hu : c = '_'
        · rw [if_pos hu]
          cases rest with
          | nil => rfl
          | cons d rest2 =>
            show (if isAsciiDigit d = true then
                    pyDigitsAux (10 * acc + digitVal d) rest2
                  else none) = none
            by_cases hdd : isAsciiDigit d = true
            · rw [if_pos hdd]
              have hne1 : ('.' : Char) ≠ c := fun e => by
                rw [← e] at hu; exact absurd hu (by decide)
              have hne2 : ('.' : Char) ≠ d := by
                intro e
                rw [← e] at hdd
                exact absurd hdd (by decide)
              have hmem : '.' ∈ rest2 := by
                rcases List.mem_cons.mp hm with h | h
                · exact absurd h hne1
                · rcases List.mem_cons.mp h with h2 | h2
                  · exact absurd h2 hne2
                  · exact h2
              have hlen : rest2.length ≤ n := by
                simp only [List.length_cons] at hl
                omega
              exact ih rest2 _ hlen hmem
            · rw [if_neg hdd]
        · rw [if_neg hu]

theorem pyDigits_dot_none {l : List Char} (h : '.' ∈ l) : pyDigits l = none := by
  cases l with
  | nil => simp at h
  | cons c rest =>
    simp only [pyDigits]
    by_cases hd : isAsciiDigit c = true
    · rw [if_pos hd]
      have hne : ('.' : Char) ≠ c := by
        intro e
        rw [← e] at hd
        exact absurd hd (by decide)
      have hmem : '.' ∈ rest := by
        rcases List.mem_cons.mp h with h2 | h2
        · exact absurd h2 hne
        · exact h2
      exact pyDigitsAux_dot_none rest.length rest _ le_rfl hmem
    · rw [if_neg hd]


theorem pyInt_dot_none {o : List Char} (h : '.' ∈ o) : pyInt o = none := by
  have hdot : '.' ∈ pyStripChars pyWhitespace o :=
    mem_pyStripChars (by decide) h
  unfold pyInt
  cases ht : pyStripChars pyWhitespace o with
  | nil => rfl
  | cons c rest =>
    rw [ht] at hdot
    show (if c = '+' then Option.map Int.ofNat (pyDigits rest)
          else if c = '-' then Option.map (fun n => -Int.ofNat n) (pyDigits rest)
          else Option.map Int.ofNat (pyDigits (c :: rest))) = none
    by_cases h1 : c = '+'
    · rw [if_pos h1]
      have hmem : '.' ∈ rest := by
        rcases List.mem_cons.mp hdot with h2 | h2
        · exact absurd (h1 ▸ h2) (by decide)
        · exact h2
      rw [pyDigits_dot_none hmem]
      rfl
    · rw [if_neg h1]
      by_cases h2 : c = '-'
      · rw [if_pos h2]
        have hmem : '.' ∈ rest := by
          rcases List.mem_cons.mp hdot with h3 | h3
          · exact absurd (h2 ▸ h3) (by decide)
          · exact h3
        rw [pyDigits_dot_none hmem]
        rfl
      · rw [if_neg h2]
        rw [pyDigits_dot_none hdot]
        rfl

theorem octetOk_no_dot {o : List Char} (h : octetOk o = true) : '.' ∉ o := by
  intro hmem
  rw [octetOk, pyInt_dot_none hmem] at h
  cases h

theorem list_length_four {α : Type} {L : List α} (h : L.length = 4) :
    ∃ a b c d, L = [a, b, c, d] := by
  cases L with
  | nil => simp at h
  | cons a t1 =>
    cases t1 with
    | nil => simp at h
    | cons b t2 =>
      cases t2 with
      | nil => simp at h
      | cons c t3 =>
        cases t3 with
        | nil => simp at h
        | cons d t4 =>
          cases t4 with
          | nil => exact ⟨a, b, c, d, rfl⟩
          | cons e t5 => simp at h

/-! ## Theorems: `validate_domain` exactly characterized -/

theorem nipOctets_iff {cs : List Char} :
    (if (splitOnChar '.' (takeBeforeFirst nipSuffix cs)).length = 4 then
       (splitOnChar '.' (takeBeforeFirst nipSuffix cs)).all octetOk
     else false) = true ↔ NipProp cs := by
  constructor
  · intro h
    by_cases hlen : (splitOnChar '.' (takeBeforeFirst nipSuffix cs)).length = 4
    · rw [if_pos hlen] at h
      obtain ⟨a, b, c, d, habcd⟩ := list_length_four hlen
      have hjoin : joinSep '.' [a, b, c, d] = takeBeforeFirst nipSuffix cs := by
        rw [← habcd]
        exact joinSep_splitOnChar '.' (takeBeforeFirst nipSuffix cs)
      rw [habcd] at h
      simp only [List.all_cons, List.all_nil, Bool.and_eq_true] at h
      exact ⟨a, b, c, d, hjoin.symm, h.1, h.2.1, h.2.2.1, h.2.2.2.1⟩
    · rw [if_neg hlen] at h
      cases h
  · rintro ⟨o1, o2, o3, o4, heq, h1, h2, h3, h4⟩
    have hfree : ∀ p ∈ [o1, o2, o3, o4], '.' ∉ p := by
      intro p hp
      rcases List.mem_cons.mp hp with rfl | hp
      · exact octetOk_no_dot h1
      rcases List.mem_cons.mp hp with rfl | hp
      · exact octetOk_no_dot h2
      rcases List.mem_cons.mp hp with rfl | hp
      · exact octetOk_no_dot h3
      rcases List.mem_cons.mp hp with rfl | hp
      · exact octetOk_no_dot h4
      · simp at hp
    rw [heq, splitOnChar_joinSep (by simp) hfree]
    simp [h1, h2, h3, h4]

theorem pyRegexMatch_iff {r : RE} {s : String} :
    pyRegexMatch r s = true ↔
      (RMatch r s.data ∨
        (s.data.getLast? = some '\n' ∧ RMatch r s.data.dropLast)) := by
  unfold pyRegexMatch
  simp [Bool.or_eq_true, Bool.and_eq_true, matchRE_iff]

theorem getLast_decomp {l : List Char} {c : Char} (h : l.getLast? = some c) :
    ∃ t, l = t ++ [c] := by
  induction l with
  | nil => simp at h
  | cons a rest ih =>
    cases rest with
    | nil =>
      simp only [List.getLast?_singleton, Option.some.injEq] at h
      exact ⟨[], by simp [h]⟩
    | cons b r2 =>
      have h2 : (b :: r2).getLast? = some c := by
        rwa [List.getLast?_cons_cons] at h
      obtain ⟨t, ht⟩ := ih h2
      exact ⟨a :: t, by simp [ht]⟩

theorem newline_tail_iff {cs : List Char} (P : List Char → Prop) :
    (cs.getLast? = some '\n' ∧ P cs.dropLast) ↔
      (∃ t, cs = t ++ ['\n'] ∧ P t) := by
  constructor
  · rintro ⟨hlast, hp⟩
    obtain ⟨t, ht⟩ := getLast_decomp hlast
    refine ⟨t, ht, ?_⟩
    have : cs.dropLast = t := by rw [ht, List.dropLast_concat]
    rwa [this] at hp
  · rintro ⟨t, rfl, hp⟩
    refine ⟨List.getLast?_concat t, ?_⟩
    rwa [List.dropLast_concat]

/-- Claim C7's amended characterization, proved: `validate_domain`
accepts exactly the strings described by `AmendedDomainSpec`. -/
theorem validate_domain_characterization (s : String) :
    validate_domain s = true ↔ AmendedDomainSpec s := by
  unfold validate_domain AmendedDomainSpec
  by_cases hnip : nipSuffix.isSuffixOf s.data = true
  · rw [if_pos hnip]
    rw [nipOctets_iff]
    constructor
    · intro h; exact Or.inl ⟨hnip, h⟩
    · rintro (⟨_, h⟩ | ⟨hfalse, _⟩)
      · exact h
      · rw [hnip] at hfalse; cases hfalse
  · have hnipf : nipSuffix.isSuffixOf s.data = false := by
      cases hx : nipSuffix.isSuffixOf s.data
      · rfl
      · exact absurd hx hnip
    rw [if_neg hnip, pyRegexMatch_iff]
    constructor
    · rintro (h | h)
      · exact Or.inr ⟨hnipf, Or.inl (rmatch_domainRE_iff.mp h)⟩
      · refine Or.inr ⟨hnipf, Or.inr ?_⟩
        obtain ⟨t, ht, hp⟩ := (newline_tail_iff (RMatch domainRE)).mp h
        exact ⟨t, ht, rmatch_domainRE_iff.mp hp⟩
    · rintro (⟨htrue, _⟩ | ⟨_, (h | h)⟩)
      · rw [htrue] at hnipf; cases hnipf
      · exact Or.inl (rmatch_domainRE_iff.mpr h)
      · refine Or.inr ((newline_tail_iff (RMatch domainRE)).mpr ?_)
        obtain ⟨t, ht, hp⟩ := h
        exact ⟨t, ht, rmatch_domainRE_iff.mpr hp⟩

/-! ## Theorems: sufficient conditions for `validate_email` -/

theorem rmatch_emailRE_of {ld dd p t : List Char}
    (hl : ld ≠ []) (hlc : ∀ c ∈ ld, isLocalChar c = true)
    (hdc : ∀ c ∈ dd, isEmailDomainChar c = true)
    (hsplit : dd = p ++ '.' :: t) (hp : p ≠ [])
    (ht : ∀ c ∈ t, isAsciiAlpha c = true) (ht2 : 2 ≤ t.length) :
    RMatch emailRE (ld ++ '@' :: dd) := by
  unfold emailRE
  have h1 : RMatch (rePlus (.cls isLocalChar)) ld := rmatch_plus_cls hl hlc
  have h2 : RMatch (.cls (fun c => c = '@')) ['@'] := RMatch.cls (by simp)
  have h3 : RMatch (rePlus (.cls isEmailDomainChar)) p :=
    rmatch_plus_cls hp (fun c hc => hdc c (by simp [hsplit, hc]))
  have h4 : RMatch (.cls (fun c => c = '.')) ['.'] := RMatch.cls (by simp)
  cases t with
  | nil => simp at ht2
  | cons t0 trest =>
    cases trest with
    | nil => simp at ht2
    | cons t1 t2 =>
      have h5 : RMatch (.cls isAsciiAlpha) [t0] := RMatch.cls (ht t0 (by simp))
      have h6 : RMatch (rePlus (.cls isAsciiAlpha)) (t1 :: t2) :=
        rmatch_plus_cls (by simp) (fun c hc => ht c (by simp [hc]))
      have h56 := RMatch.cat h5 h6
      have h456 := RMatch.cat h4 h56
      have h3456 := RMatch.cat h3 h456
      have h23456 := RMatch.cat h2 h3456
      have hall := RMatch.cat h1 h23456
      simpa [hsplit] using hall

theorem validate_email_of_parts (l d : String) (p t : List Char)
    (hl : l.data ≠ []) (hlc : ∀ c ∈ l.data, isLocalChar c = true)
    (hd : validate_domain d = true)
    (hdc : ∀ c ∈ d.data, isEmailDomainChar c = true)
    (hsplit : d.data = p ++ '.' :: t) (hp : p ≠ [])
    (ht : ∀ c ∈ t, isAsciiAlpha c = true) (ht2 : 2 ≤ t.length) :
    validate_email (l ++ "@" ++ d) = true := by
  have hdata : (l ++ "@" ++ d).data = l.data ++ '@' :: d.data := by
    rw [String.data_append, String.data_append]
    simp
  have hmatch : pyRegexMatch emailRE (l ++ "@" ++ d) = true := by
    rw [pyRegexMatch_iff]
    exact Or.inl (by rw [hdata]; exact rmatch_emailRE_of hl hlc hdc hsplit hp ht ht2)
  have hlAt : '@' ∉ l.data := by
    intro hmem
    have := hlc _ hmem
    exact absurd this (by decide)
  have hdAt : '@' ∉ d.data := by
    intro hmem
    have := hdc _ hmem
    exact absurd this (by decide)
  have hsplitAt : splitOnChar '@' ((l ++ "@" ++ d).data) = [l.data, d.data] := by
    rw [hdata, splitOnChar_append hlAt, splitOnChar_of_not_mem hdAt]
  have hdne : d.data ≠ [] := by simp [hsplit]
  unfold validate_email
  rw [hmatch, if_pos rfl, hsplitAt]
  have hle : l.data.isEmpty = false := by
    cases hx : l.data
    · exact absurd hx hl
    · rfl
  have hde : d.data.isEmpty = false := by
    cases hx : d.data
    · exact absurd hx hdne
    · rfl
  show (if (l.data.isEmpty || d.data.isEmpty) = true then false
        else validate_domain (String.mk d.data)) = true
  rw [hle, hde]
  simp only [Bool.or_self, if_neg (by simp : ¬ (false = true))]
  have hmk : String.mk d.data = d := by cases d; rfl
  rw [hmk]
  exact hd

/-! ## Theorems: `validate_s3_region` is total and idempotent -/

theorem lookup_mem_values {l : List (String × String)} {k v : String}
    (h : l.lookup k = some v) : v ∈ l.map Prod.snd := by
  induction l with
  | nil => simp [List.lookup] at h
  | cons p rest ih =>
    obtain ⟨k1, v1⟩ := p
    simp only [List.lookup] at h
    cases hak : k == k1 with
    | true =>
      rw [hak] at h
      simp only [Option.some.injEq] at h
      simp [← h]
    | false =>
      rw [hak] at h
      simp only [List.map_cons, List.mem_cons]
      exact Or.inr (ih h)

theorem corrections_values_match :
    ∀ v ∈ s3RegionCorrections.map Prod.snd, pyRegexMatch regionRE v = true := by
  decide

theorem validAws_match :
    ∀ v ∈ validAwsRegions, pyRegexMatch regionRE v = true := by
  decide

theorem validate_s3_region_fst_matches (r : String) :
    pyRegexMatch regionRE (validate_s3_region r).1 = true := by
  unfold validate_s3_region
  by_cases h : pyRegexMatch regionRE r = true
  · rw [if_pos h]; exact h
  · rw [if_neg h]
    cases hl : s3RegionCorrections.lookup (pyUpper r) with
    | some v => exact corrections_values_match v (lookup_mem_values hl)
    | none =>
      cases hf : validAwsRegions.find? (fun v => pyLower r == pyLower v) with
      | some v => exact validAws_match v (List.mem_of_find?_eq_some hf)
      | none => decide

theorem validate_s3_region_snd (r : String) : (validate_s3_region r).2 = true := by
  unfold validate_s3_region
  by_cases h : pyRegexMatch regionRE r = true
  · rw [if_pos h]
  · rw [if_neg h]
    cases hl : s3RegionCorrections.lookup (pyUpper r) with
    | some v => rfl
    | none =>
      cases hf : validAwsRegions.find? (fun v => pyLower r == pyLower v) with
      | some v => rfl
      | none => rfl

theorem validate_s3_region_of_match {r : String}
    (h : pyRegexMatch regionRE r = true) : validate_s3_region r = (r, true) := by
  unfold validate_s3_region
  rw [if_pos h]

/-! ## Theorems: the lock-retry loop is bounded -/

theorem lockRetryAux_bounds (outcome : Nat → AttemptResult) :
    ∀ (remaining done delays : Nat),
      (lockRetryAux outcome remaining done delays).attempts ≤ done + remaining ∧
      (lockRetryAux outcome remaining done delays).delays ≤ delays + remaining := by
  intro remaining
  induction remaining with
  | zero =>
    intro done delays
    simp [lockRetryAux]
  | succ n ih =>
    intro done delays
    unfold lockRetryAux
    cases outcome done with
    | success =>
      show ((⟨true, done + 1, delays⟩ : RetryOutcome).attempts ≤ done + (n + 1)) ∧
           ((⟨true, done + 1, delays⟩ : RetryOutcome).delays ≤ delays + (n + 1))
      exact ⟨by show done + 1 ≤ done + (n + 1); omega,
             by show delays ≤ delays + (n + 1); omega⟩
    | lockError =>
      show ((if n = 0 then (⟨false, done + 1, delays⟩ : RetryOutcome)
             else lockRetryAux outcome n (done + 1) (delays + 1)).attempts ≤
              done + (n + 1)) ∧
           ((if n = 0 then (⟨false, done + 1, delays⟩ : RetryOutcome)
             else lockRetryAux outcome n (done + 1) (delays + 1)).delays ≤
              delays + (n + 1))
      by_cases hn : n = 0
      · simp only [if_pos hn]
        exact ⟨by show done + 1 ≤ done + (n + 1); omega,
               by show delays ≤ delays + (n + 1); omega⟩
      · simp only [if_neg hn]
        obtain ⟨h1, h2⟩ := ih (done + 1) (delays + 1)
        exact ⟨by omega, by omega⟩
    | otherFailure =>
      show ((⟨false, done + 1, delays⟩ : RetryOutcome).attempts ≤ done + (n + 1)) ∧
           ((⟨false, done + 1, delays⟩ : RetryOutcome).delays ≤ delays + (n + 1))
      exact ⟨by show done + 1 ≤ done + (n + 1); omega,
             by show delays ≤ delays + (n + 1); omega⟩

theorem lockRetryLoop_bounds (outcome : Nat → AttemptResult) (maxRetries : Nat) :
    (lockRetryLoop outcome maxRetries).attempts ≤ maxRetries ∧
    (lockRetryLoop outcome maxRetries).delays ≤ maxRetries := by
  have := lockRetryAux_bounds outcome maxRetries 0 0
  simpa [lockRetryLoop] using this

theorem lockRetryLoop_scenario (outcome : Nat → AttemptResult) (maxRetries : Nat)
    (h0 : outcome 0 = .lockError) (h1 : outcome 1 = .lockError)
    (h2 : outcome 2 = .success) (h3 : 3 ≤ maxRetries) :
    lockRetryLoop outcome maxRetries = ⟨true, 3, 2⟩ := by
  obtain ⟨k, rfl⟩ : ∃ k, maxRetries = k + 3 := ⟨maxRetries - 3, by omega⟩
  show lockRetryAux outcome (k + 3) 0 0 = ⟨true, 3, 2⟩
  show (match outcome 0 with
    | .success => (⟨true, 0 + 1, 0⟩ : RetryOutcome)
    | .lockError =>
      if k + 2 = 0 then ⟨false, 0 + 1, 0⟩
      else lockRetryAux outcome (k + 2) (0 + 1) (0 + 1)
    | .otherFailure => ⟨false, 0 + 1, 0⟩) = ⟨true, 3, 2⟩
  rw [h0, if_neg (by omega : ¬ k + 2 = 0)]
  show (match outcome 1 with
    | .success => (⟨true, 1 + 1, 1⟩ : RetryOutcome)
    | .lockError =>
      if k + 1 = 0 then ⟨false, 1 + 1, 1⟩
      else lockRetryAux outcome (k + 1) (1 + 1) (1 + 1)
    | .otherFailure => ⟨false, 1 + 1, 1⟩) = ⟨true, 3, 2⟩
  rw [h1, if_neg (by omega : ¬ k + 1 = 0)]
  show (match outcome 2 with
    | .success => (⟨true, 2 + 1, 2⟩ : RetryOutcome)
    | .lockError =>
      if k = 0 then ⟨false, 2 + 1, 2⟩
      else lockRetryAux outcome k (2 + 1) (2 + 1)
    | .otherFailure => ⟨false, 2 + 1, 2⟩) = ⟨true, 3, 2⟩
  rw [h2]

/-! ## Theorems: `run_command` never raises; `install_dependencies` -/

theorem run_command_never_raises (o : CmdOutcome) :
    ∃ r, run_command o = .ok r := by
  cases o <;> exact ⟨_, rfl⟩

theorem install_dependencies_locked_abort (env : Env) (st : St)
    (h : st.force_continue = false) :
    install_dependencies env st =
      (false, [.cmd "lsof /var/lib/dpkg/lock-frontend",
               .print "APT is currently locked by another process."]) := by
  unfold install_dependencies
  rw [h]
  rfl

/-! ## Theorems: traces before the pipeline contain no phase event -/

theorem noStep_nil : noStep [] := by
  intro e he
  simp at he

theorem noStep_append {t1 t2 : List Event} (h1 : noStep t1) (h2 : noStep t2) :
    noStep (t1 ++ t2) := by
  intro e he
  rcases List.mem_append.mp he with h | h
  · exact h1 e h
  · exact h2 e h

theorem noStep_cons {ev : Event} {t : List Event}
    (h1 : isStepEvent ev = false) (h2 : noStep t) : noStep (ev :: t) := by
  intro e he
  rcases List.mem_cons.mp he with rfl | h
  · exact h1
  · exact h2 e h

theorem noStep_singleton {ev : Event} (h : isStepEvent ev = false) :
    noStep [ev] := noStep_cons h noStep_nil

theorem detectServerIp_no_step (env : Env) : noStep (detectServerIp env).2 := by
  unfold detectServerIp
  dsimp only
  split
  · exact noStep_singleton rfl
  · split
    · exact noStep_cons rfl (noStep_singleton rfl)
    · split
      · exact noStep_cons rfl (noStep_cons rfl (noStep_singleton rfl))
      · exact noStep_cons rfl (noStep_cons rfl (noStep_singleton rfl))

theorem promptOr_no_step (p d : String) (inputs : List String) :
    noStep (promptOr p d inputs).2 := by
  unfold promptOr
  cases inputs with
  | nil => exact noStep_singleton rfl
  | cons x rest => exact noStep_singleton rfl

theorem promptRaw_no_step (p : String) (inputs : List String) :
    noStep (promptRaw p inputs).2 := by
  unfold promptRaw
  cases inputs with
  | nil => exact noStep_singleton rfl
  | cons x rest => exact noStep_singleton rfl

theorem domainLoop_no_step (cur : String) : ∀ (fuel : Nat) (inputs : List String),
    noStep (domainLoop cur inputs fuel).2 := by
  intro fuel
  induction fuel with
  | zero =>
    intro inputs e he
    simp [domainLoop] at he
  | succ f ih =>
    intro inputs e he
    unfold domainLoop at he
    cases inputs with
    | nil =>
      simp at he
      subst he
      rfl
    | cons x rest =>
      dsimp only at he
      by_cases hv : validate_domain (if pyStrip x = "" then cur else pyStrip x) = true
      · rw [if_pos hv] at he
        simp at he
        subst he
        rfl
      · rw [if_neg hv] at he
        rcases List.mem_cons.mp he with rfl | he2
        · rfl
        · exact ih rest e he2

theorem emailLoop_no_step (cur : String) : ∀ (fuel : Nat) (inputs : List String),
    noStep (emailLoop cur inputs fuel).2 := by
  intro fuel
  induction fuel with
  | zero =>
    intro inputs e he
    simp [emailLoop] at he
  | succ f ih =>
    intro inputs e he
    unfold emailLoop at he
    cases inputs with
    | nil =>
      simp at he
      subst he
      rfl
    | cons x rest =>
      dsimp only at he
      by_cases hv : validate_email (if pyStrip x = "" then cur else pyStrip x) = true
      · rw [if_pos hv] at he
        simp at he
        subst he
        rfl
      · rw [if_neg hv] at he
        rcases List.mem_cons.mp he with rfl | he2
        · rfl
        · exact ih rest e he2

theorem regionLoop_no_step : ∀ (fuel : Nat) (s3r : String) (inputs : List String),
    noStep (regionLoop s3r inputs fuel).2 := by
  intro fuel
  induction fuel with
  | zero =>
    intro s3r inputs e he
    simp [regionLoop] at he
  | succ f ih =>
    intro s3r inputs e he
    unfold regionLoop at he
    cases inputs with
    | nil =>
      simp at he
      subst he
      rfl
    | cons x rest =>
      dsimp only at he
      by_cases hv : (validate_s3_region (if pyStrip x = "" then s3r else pyStrip x)).2 = true
      · rw [if_pos hv] at he
        simp at he
        subst he
        rfl
      · rw [if_neg hv] at he
        rcases List.mem_cons.mp he with rfl | he2
        · rfl
        · exact ih _ rest e he2


theorem regionStepFn_no_step (prov : String) (ins4 : List String)
    (fuel : Nat) (st : St) : noStep (regionStepFn prov ins4 fuel st).2 := by
  unfold regionStepFn
  split
  · split
    next e tr heq =>
      have h := regionLoop_no_step fuel st.s3_region ins4
      rw [heq] at h
      exact h
    next reg ins5 tr heq =>
      have h := regionLoop_no_step fuel st.s3_region ins4
      rw [heq] at h
      exact h
  · split
    · split
      next e tr heq =>
        have h := promptRaw_no_step endpointPromptTxt ins4
        rw [heq] at h
        exact h
      next ep ins5 tr heq =>
        have h := promptRaw_no_step endpointPromptTxt ins4
        rw [heq] at h
        exact h
    · exact noStep_nil

theorem backupCredsPrompts_no_step (choice : String) (ins2 : List String)
    (fuel : Nat) (st : St) :
    noStep (backupCredsPrompts choice ins2 fuel st).2 := by
  unfold backupCredsPrompts
  generalize (if choice = "" then "1" else choice) = prov
  split
  next e tr heq =>
    have h := promptRaw_no_step accessKeyPromptTxt ins2
    rw [heq] at h
    exact h
  next ak ins3 tr3 heq3 =>
    have h3 : noStep tr3 := by
      have h := promptRaw_no_step accessKeyPromptTxt ins2
      rw [heq3] at h
      exact h
    split
    next e tr heq =>
      refine noStep_append h3 ?_
      have h := promptRaw_no_step secretKeyPromptTxt ins3
      rw [heq] at h
      exact h
    next sk ins4 tr4 heq4 =>
      have h4 : noStep tr4 := by
        have h := promptRaw_no_step secretKeyPromptTxt ins3
        rw [heq4] at h
        exact h
      have hrs := regionStepFn_no_step prov ins4 fuel
        { st with s3_provider := some prov,
                  s3_access_key := some ak, s3_secret_key := some sk }
      dsimp only
      split
      next e tr heqr =>
        refine noStep_append (noStep_append h3 h4) ?_
        rw [heqr] at hrs
        exact hrs
      next st5 ins5 tr5 heqr =>
        have h5 : noStep tr5 := by
          rw [heqr] at hrs
          exact hrs
        split
        next e tr heq =>
          refine noStep_append (noStep_append (noStep_append h3 h4) h5) ?_
          have h := promptRaw_no_step bucketPromptTxt ins5
          rw [heq] at h
          exact h
        next bk ins6 tr6 heq6 =>
          have h6 : noStep tr6 := by
            have h := promptRaw_no_step bucketPromptTxt ins5
            rw [heq6] at h
            exact h
          split
          next e tr heq =>
            refine noStep_append (noStep_append (noStep_append
              (noStep_append h3 h4) h5) h6) ?_
            have h := promptOr_no_step freqPromptTxt "1" ins6
            rw [heq] at h
            exact h
          next freq ins7 tr7 heq7 =>
            have h7 : noStep tr7 := by
              have h := promptOr_no_step freqPromptTxt "1" ins6
              rw [heq7] at h
              exact h
            exact noStep_append (noStep_append (noStep_append
              (noStep_append h3 h4) h5) h6) h7

theorem backupPrompts_no_step (inputs : List String) (fuel : Nat) (st : St) :
    noStep (backupPrompts inputs fuel st).2 := by
  unfold backupPrompts
  split
  next e tr heq =>
    have h := promptRaw_no_step providerPromptTxt inputs
    rw [heq] at h
    exact h
  next choice0 ins1 tr1 heq1 =>
    have h1 : noStep tr1 := by
      have h := promptRaw_no_step providerPromptTxt inputs
      rw [heq1] at h
      exact h
    split
    · split
      next e tr heq =>
        refine noStep_append h1 ?_
        have h := promptRaw_no_step morePromptTxt ins1
        rw [heq] at h
        exact h
      next c ins2 tr heq =>
        have h : noStep tr := by
          have hm := promptRaw_no_step morePromptTxt ins1
          rw [heq] at hm
          exact hm
        exact noStep_append (noStep_append h1 h)
          (backupCredsPrompts_no_step c ins2 fuel st)
    · exact noStep_append h1 (backupCredsPrompts_no_step choice0 ins1 fuel st)

theorem gui_tail_no_step (ins6 : List String) (fuel : Nat) (st1 : St)
    (trHead : List Event) (hHead : noStep trHead) (enb : Bool) :
    noStep ((if enb then
        match backupPrompts ins6 fuel st1 with
        | (.error e, tr) =>
          ((.error e : Except PyExc (St × Bool × List String)), trHead ++ tr)
        | (.ok (st2, ins7), tr) =>
          (.ok (st2, true, ins7), trHead ++ tr ++ [.save])
      else (.ok (st1, true, ins6), trHead ++ [.save]))).2 := by
  split
  · split
    next e tr heq =>
      refine noStep_append hHead ?_
      have h := backupPrompts_no_step ins6 fuel st1
      rw [heq] at h
      exact h
    next st2 ins7 tr heq =>
      have h : noStep tr := by
        have hb := backupPrompts_no_step ins6 fuel st1
        rw [heq] at hb
        exact hb
      exact noStep_append (noStep_append hHead h) (noStep_singleton rfl)
  · exact noStep_append hHead (noStep_singleton rfl)

theorem get_user_inputs_no_step (env : Env) (inputs : List String) (fuel : Nat)
    (st : St) : noStep (get_user_inputs env inputs fuel st).2 := by
  unfold get_user_inputs
  split
  next serverIp tr0 heq0 =>
    have h0 : noStep tr0 := by
      have h := detectServerIp_no_step env
      rw [heq0] at h
      exact h
    dsimp only
    generalize (match st.domain with
      | none => "horilla." ++ serverIp ++ ".nip.io"
      | some d => if d = "" then "horilla." ++ serverIp ++ ".nip.io" else d) = dom0
    split
    next e tr heq =>
      refine noStep_append h0 ?_
      have h := domainLoop_no_step dom0 fuel inputs
      rw [heq] at h
      exact h
    next dom ins1 tr1 heq1 =>
      have h1 : noStep tr1 := by
        have h := domainLoop_no_step dom0 fuel inputs
        rw [heq1] at h
        exact h
      split
      next e tr heq =>
        refine noStep_append (noStep_append h0 h1) ?_
        have h := emailLoop_no_step st.email fuel ins1
        rw [heq] at h
        exact h
      next em ins2 tr2 heq2 =>
        have h2 : noStep tr2 := by
          have h := emailLoop_no_step st.email fuel ins1
          rw [heq2] at h
          exact h
        split
        next e tr heq =>
          refine noStep_append (noStep_append (noStep_append h0 h1) h2) ?_
          have h := promptOr_no_step
            ("Admin username [" ++ st.admin_username ++ "]: ")
            st.admin_username ins2
          rw [heq] at h
          exact h
        next usr ins3 tr3 heq3 =>
          have h3 : noStep tr3 := by
            have h := promptOr_no_step
              ("Admin username [" ++ st.admin_username ++ "]: ")
              st.admin_username ins2
            rw [heq3] at h
            exact h
          split
          next e tr heq =>
            refine noStep_append (noStep_append (noStep_append
              (noStep_append h0 h1) h2) h3) ?_
            have h := promptOr_no_step
              ("Admin password [" ++ st.admin_password ++ "]: ")
              st.admin_password ins3
            rw [heq] at h
            exact h
          next pw ins4 tr4 heq4 =>
            have h4 : noStep tr4 := by
              have h := promptOr_no_step
                ("Admin password [" ++ st.admin_password ++ "]: ")
                st.admin_password ins3
              rw [heq4] at h
              exact h
            split
            next e tr heq =>
              refine noStep_append (noStep_append (noStep_append (noStep_append
                (noStep_append h0 h1) h2) h3) h4) ?_
              have h := promptOr_no_step
                ("Installation directory [" ++ st.install_dir ++ "]: ")
                st.install_dir ins4
              rw [heq] at h
              exact h
            next dir ins5 tr5 heq5 =>
              have h5 : noStep tr5 := by
                have h := promptOr_no_step
                  ("Installation directory [" ++ st.install_dir ++ "]: ")
                  st.install_dir ins4
                rw [heq5] at h
                exact h
              have h05 : noStep (tr0 ++ tr1 ++ tr2 ++ tr3 ++ tr4 ++ tr5) :=
                noStep_append (noStep_append (noStep_append (noStep_append
                  (noStep_append h0 h1) h2) h3) h4) h5
              cases ins5 with
              | nil =>
                refine noStep_append h05 (noStep_singleton ?_)
                rfl
              | cons eb ins6 =>
                dsimp only
                refine gui_tail_no_step ins6 fuel _ _
                  (noStep_append h05 (noStep_singleton ?_)) _
                rfl

theorem validate_backup_settings_no_step (inputs : List String) (fuel : Nat)
    (st : St) : noStep (validate_backup_settings inputs fuel st).2 := by
  unfold validate_backup_settings
  split
  · exact noStep_nil
  · split
    · exact noStep_nil
    · split
      · exact noStep_nil
      · split
        · exact noStep_nil
        · dsimp only
          cases hprov : st.s3_provider with
          | none =>
            dsimp only
            split
            · exact noStep_nil
            · refine noStep_append noStep_nil (noStep_singleton ?_)
              rfl
          | some p =>
            dsimp only
            split
            next e tr heq =>
              have h := regionStepFn_no_step p inputs fuel st
              rw [heq] at h
              exact h
            next st1 ins1 tr1 heq1 =>
              have h1 : noStep tr1 := by
                have h := regionStepFn_no_step p inputs fuel st
                rw [heq1] at h
                exact h
              split
              · exact h1
              · refine noStep_append h1 (noStep_singleton ?_)
                rfl

/-! ## Theorems: numeric backup frequencies are always rejected -/

theorem regionLoop_first (s3r x : String) (rest : List String) (f : Nat) :
    regionLoop s3r (x :: rest) (f + 1) =
      (.ok ((if pyStrip x = "" then s3r else pyStrip x), rest),
       [.prompt ("Region / Endpoint [" ++ s3r ++ "]: ")]) := by
  unfold regionLoop
  dsimp only
  rw [validate_s3_region_snd]
  simp

theorem contains_numeric_false {freq : String}
    (hfreq : freq = "1" ∨ freq = "2" ∨ freq = "3") :
    (["daily", "weekly", "monthly"].contains freq) = false := by
  rcases hfreq with rfl | rfl | rfl <;> decide

theorem validate_backup_settings_numeric_false (x : String) (rest : List String)
    (f : Nat) (st : St) (henb : st.enable_backups = true)
    (hfreq : st.backup_frequency = "1" ∨ st.backup_frequency = "2" ∨
      st.backup_frequency = "3") :
    ∃ st2 ins2 tr,
      validate_backup_settings (x :: rest) (f + 1) st =
        (.ok (st2, false, ins2), tr) := by
  have hcont := contains_numeric_false hfreq
  have hd1 : st.backup_frequency ≠ "daily" := by
    rcases hfreq with h | h | h <;> simp [h]
  have hd2 : st.backup_frequency ≠ "weekly" := by
    rcases hfreq with h | h | h <;> simp [h]
  have hd3 : st.backup_frequency ≠ "monthly" := by
    rcases hfreq with h | h | h <;> simp [h]
  by_cases hak : pyFalsyOpt st.s3_access_key = true
  · exact ⟨st, x :: rest, [], by simp [validate_backup_settings, henb, hak]⟩
  by_cases hsk : pyFalsyOpt st.s3_secret_key = true
  · exact ⟨st, x :: rest, [], by simp [validate_backup_settings, henb, hak, hsk]⟩
  by_cases hbk : pyFalsyOpt st.s3_bucket_name = true
  · exact ⟨st, x :: rest, [],
      by simp [validate_backup_settings, henb, hak, hsk, hbk]⟩
  cases hprov : st.s3_provider with
  | none =>
    refine ⟨st, x :: rest, [.print "Invalid backup frequency. Must be 'daily', 'weekly', or 'monthly'."], ?_⟩
    simp [validate_backup_settings, henb, hak, hsk, hbk, hprov, hcont,
      hd1, hd2, hd3]
  | some p =>
    by_cases hr : providerRegionList.contains p = true
    · refine ⟨{ st with s3_region := if pyStrip x = "" then st.s3_region else pyStrip x },
        rest,
        [.prompt ("Region / Endpoint [" ++ st.s3_region ++ "]: "),
         .print "Invalid backup frequency. Must be 'daily', 'weekly', or 'monthly'."], ?_⟩
      have hrm : p ∈ providerRegionList := by simpa using hr
      simp [validate_backup_settings, henb, hak, hsk, hbk, hprov,
        regionStepFn, hr, hrm, regionLoop_first, hcont, hd1, hd2, hd3]
    · by_cases he : providerEndpointList.contains p = true
      · refine ⟨{ st with s3_region := pyStrip x }, rest,
          [.prompt endpointPromptTxt,
           .print "Invalid backup frequency. Must be 'daily', 'weekly', or 'monthly'."], ?_⟩
        have hem : p ∈ providerEndpointList := by simpa using he
        have hrm : p ∉ providerRegionList := by
          intro hm
          exact hr (by simpa using hm)
        simp [validate_backup_settings, henb, hak, hsk, hbk, hprov,
          regionStepFn, hr, hrm, he, hem, promptRaw, hcont, hd1, hd2, hd3]
      · refine ⟨st, x :: rest,
          [.print "Invalid backup frequency. Must be 'daily', 'weekly', or 'monthly'."], ?_⟩
        have hrm : p ∉ providerRegionList := by
          intro hm
          exact hr (by simpa using hm)
        have hem : p ∉ providerEndpointList := by
          intro hm
          exact he (by simpa using hm)
        simp [validate_backup_settings, henb, hak, hsk, hbk, hprov,
          regionStepFn, hr, hrm, he, hem, hcont, hd1, hd2, hd3]

theorem installRun_abort_eq (runStep : String → St → Bool) (env : Env)
    (inputs : List String) (fuel : Nat) (st st1 st2 : St)
    (ins1 ins2 : List String) (tr1 tr2 : List Event)
    (hgui : get_user_inputs env inputs fuel st = (.ok (st1, true, ins1), tr1))
    (henb : st1.enable_backups = true)
    (hvbs : validate_backup_settings ins1 fuel st1 =
      (.ok (st2, false, ins2), tr2)) :
    installRun runStep env inputs fuel st = (.ok false, tr1 ++ tr2) := by
  simp only [installRun, hgui, henb, hvbs, Bool.not_true, Bool.not_false,
    if_false, if_true, ite_true, ite_false]
  simp

/-! ## The claims -/

/-- Claim C1: refuted.  With `--non-interactive` and every required
parameter supplied by flags, `__init__` succeeds with the flag-derived
state, yet the parameter-acquisition step is still interactive:
`get_user_inputs` never consults `non_interactive`, and on a run where
the operator just presses Enter six times it issues six interactive
prompts (terminating with the flag values only because the empty
answers fall back to them as defaults). -/
theorem claim_C1_non_interactive_still_prompts :
    horillaInit argsAllFlags false 0 none = .ok stAllFlags ∧
    stAllFlags.non_interactive = true ∧
    (get_user_inputs envAllOk ["", "", "", "", "", ""] 5 stAllFlags).1 =
      .ok (stAllFlags, true, []) ∧
    ((get_user_inputs envAllOk ["", "", "", "", "", ""] 5 stAllFlags).2.countP
      isPromptEvent) = 6 :=
  ⟨rfl, rfl, rfl, rfl⟩

/-- Claim C2: confirmed against the spec-modelled retry loop (no such
loop exists in `src/install.py`).  The loop never makes more than
`maxRetries` attempts, its total sleep time `delays * retryDelay` is
bounded by `maxRetries * retryDelay`, and in the spec's scenario — lock
error on attempts 1 and 2, success on attempt 3 — it returns success
after exactly 3 attempts with two inter-attempt delays. -/
theorem claim_C2_lock_retry_bounded (outcome : Nat → AttemptResult)
    (maxRetries retryDelay : Nat) :
    (lockRetryLoop outcome maxRetries).attempts ≤ maxRetries ∧
    (lockRetryLoop outcome maxRetries).delays * retryDelay ≤
      maxRetries * retryDelay ∧
    (outcome 0 = .lockError → outcome 1 = .lockError →
      outcome 2 = .success → 3 ≤ maxRetries →
      lockRetryLoop outcome maxRetries = ⟨true, 3, 2⟩) :=
  ⟨(lockRetryLoop_bounds outcome maxRetries).1,
   mul_le_mul_right' (lockRetryLoop_bounds outcome maxRetries).2 retryDelay,
   fun h0 h1 h2 h3 => lockRetryLoop_scenario outcome maxRetries h0 h1 h2 h3⟩

/-- Claim C2 witness: the scenario hypotheses hold of `c2Scenario` with
`maxRetries = 3`, and the loop then returns `⟨true, 3, 2⟩` within the
attempt bound. -/
theorem claim_C2_lock_retry_bounded_witness :
    (lockRetryLoop c2Scenario 3).attempts ≤ 3 ∧
    lockRetryLoop c2Scenario 3 = ⟨true, 3, 2⟩ :=
  ⟨(claim_C2_lock_retry_bounded c2Scenario 3 30).1,
   (claim_C2_lock_retry_bounded c2Scenario 3 30).2.2
     (by rfl) (by rfl) (by rfl) (by decide)⟩

/-- Claim C3: refuted.  With `--non-interactive` and the required
domain missing, `__init__` succeeds, and the parameter-acquisition step
does not exit before running external commands: its very first
observable event is the external command `curl -s ifconfig.me` (the
server-IP probe), and with stdin exhausted the run then dies at the
domain prompt with an uncaught `EOFError` — which propagates out of
`main` — instead of a clean non-zero exit. -/
theorem claim_C3_missing_domain_runs_command_first :
    horillaInit argsNoDomain false 0 none = .ok stNoDomain ∧
    stNoDomain.non_interactive = true ∧
    stNoDomain.domain = none ∧
    (get_user_inputs envAllOk ([] : List String) 5 stNoDomain).2.head? =
      some (.cmd "curl -s ifconfig.me") ∧
    (get_user_inputs envAllOk ([] : List String) 5 stNoDomain).1 =
      .error .eofError ∧
    (mainRun (fun _ _ => true) envAllOk argsNoDomain true false 0 none [] 5).1 =
      .error .eofError :=
  ⟨rfl, rfl, rfl, rfl, rfl, rfl⟩

/-- Claim C4: refuted on both halves.  `validate_domain` rejects
`horilla.127.0.0.1.nip.io` — the `.nip.io` branch accepts only exactly
four dot-separated octets, and the `horilla.` prefix makes five parts —
while a bare four-octet form such as `1.2.3.4.nip.io` is accepted; and
for an accepted `.nip.io` domain the pipeline does not skip certificate
issuance: `configure_web_server` runs the certbot certificate-request
command. -/
theorem claim_C4_nip_exemption_and_certbot :
    validate_domain "horilla.127.0.0.1.nip.io" = false ∧
    validate_domain "1.2.3.4.nip.io" = true ∧
    (Event.cmd "certbot --nginx -d 1.2.3.4.nip.io --email admin@example.com --agree-tos --non-interactive")
      ∈ (configure_web_server envAllOk stNipDomain).2 := by
  refine ⟨by decide, by decide, by decide⟩

/-- Claim C5: refuted in its bypass half.  The startup root check is
unconditional: every invocation with a nonzero effective user id exits
with code 1, regardless of the arguments — in particular
`--skip-root-check` does not let a non-root invocation proceed — while
a root invocation does proceed past the check. -/
theorem claim_C5_skip_root_check_ignored :
    (∀ (args : Args) (stdoutTTY : Bool) (cfg : Option SavedConfig),
      horillaInit args stdoutTTY 1000 cfg = .error 1) ∧
    argsSkipRoot.skip_root_check = true ∧
    horillaInit argsSkipRoot false 1000 none = .error 1 ∧
    (∃ st, horillaInit argsSkipRoot false 0 none = .ok st) :=
  ⟨fun _ _ _ => rfl, rfl, rfl, ⟨_, rfl⟩⟩

/-- Claim C6 counterexample: the domain `example.12` is validator-true
(its final label `12` satisfies the hostname grammar), and the local
part `a` is non-empty and drawn from the allowed alphabet, yet
`validate_email "a@example.12"` is false — the email regex additionally
requires an all-letter top-level label of length at least two, which
the claim omits. -/
theorem claim_C6_counterexample :
    validate_domain "example.12" = true ∧
    "a".data ≠ [] ∧ (∀ c ∈ "a".data, isLocalChar c = true) ∧
    validate_email "a@example.12" = false := by
  refine ⟨by decide, by decide, by decide, by decide⟩

/-- Claim C6 (amended): the email validator accepts `local@domain`
when, in addition to the claim's hypotheses (domain validator-true,
local part non-empty over the allowed local alphabet), the domain is
drawn from the email regex's domain alphabet and decomposes as a
non-empty head, a dot, and an all-letter top-level label of length at
least two. -/
theorem claim_C6_amended_email_accepts (l d : String) (p t : List Char)
    (hl : l.data ≠ []) (hlc : ∀ c ∈ l.data, isLocalChar c = true)
    (hd : validate_domain d = true)
    (hdc : ∀ c ∈ d.data, isEmailDomainChar c = true)
    (hsplit : d.data = p ++ '.' :: t) (hp : p ≠ [])
    (ht : ∀ c ∈ t, isAsciiAlpha c = true) (ht2 : 2 ≤ t.length) :
    validate_email (l ++ "@" ++ d) = true :=
  validate_email_of_parts l d p t hl hlc hd hdc hsplit hp ht ht2

/-- Claim C6 (amended) witness: `user.name+tag@hrms.example.com` is
accepted, via the amended theorem at the decomposition
`hrms.example` · `.` · `com`. -/
theorem claim_C6_amended_email_accepts_witness :
    validate_email ("user.name+tag" ++ "@" ++ "hrms.example.com") = true :=
  claim_C6_amended_email_accepts "user.name+tag" "hrms.example.com"
    "hrms.example".data "com".data (by decide) (by decide) (by decide)
    (by decide) (by decide) (by decide) (by decide) (by decide)

/-- Claim C7 counterexample: `a.b.nip.io` satisfies the hostname
grammar (labels `a`, `b`, `nip`, final label `io`), yet
`validate_domain` rejects it — for any string ending in `.nip.io` the
code applies only the four-octet rule and never consults the hostname
grammar, so the claimed "hostname grammar **together with** the nip.io
form" characterization is wrong. -/
theorem claim_C7_counterexample :
    validate_domain "a.b.nip.io" = false ∧ HostnameProp ("a.b.nip.io").data := by
  refine ⟨by decide,
    ⟨[['a'], ['b'], ['n', 'i', 'p']], ['i', 'o'], by decide, by decide, ?_,
     ⟨'i', [], 'o', rfl, by decide, by decide, by decide, by decide⟩⟩⟩
  intro lab hlab
  simp only [List.mem_cons, List.not_mem_nil, or_false] at hlab
  rcases hlab with rfl | rfl | rfl
  · exact Or.inl ⟨'a', rfl, by decide⟩
  · exact Or.inl ⟨'b', rfl, by decide⟩
  · exact Or.inr ⟨'n', ['i'], 'p', rfl, by decide, by decide, by decide, by decide⟩

/-- Claim C7 (amended): the exact characterization of
`validate_domain`.  A string ending in `.nip.io` is accepted exactly
when the text before the first `.nip.io` is four dot-separated octets
each in 0..255 (the hostname grammar is never consulted for it); every
other string is accepted exactly when it — or, per Python's `$`, the
string minus one trailing newline — satisfies the hostname grammar. -/
theorem claim_C7_amended_domain_characterization (s : String) :
    validate_domain s = true ↔ AmendedDomainSpec s :=
  validate_domain_characterization s

/-- Claim C8: confirmed.  `validate_s3_region` is total — it returns
`True` for every input — and idempotent: feeding the returned region
back in returns it unchanged with `True` and no further correction.
The alias table maps `Tokyo` to `ap-northeast-1`. -/
theorem claim_C8_region_total_idempotent :
    (∀ r : String, (validate_s3_region r).2 = true ∧
      validate_s3_region (validate_s3_region r).1 =
        ((validate_s3_region r).1, true)) ∧
    validate_s3_region "Tokyo" = ("ap-northeast-1", true) :=
  ⟨fun r => ⟨validate_s3_region_snd r,
    validate_s3_region_of_match (validate_s3_region_fst_matches r)⟩,
   by decide⟩

/-- Claim C9: confirmed.  Whenever parameter acquisition succeeds with
backups enabled and one of the documented numeric backup-frequency
codes `1`, `2`, `3` (the `--backup-frequency` default and its
documented values, and exactly what the interactive menu stores),
`validate_backup_settings` rejects the frequency — it accepts only the
literals `daily`, `weekly`, `monthly` — and `install` aborts, returning
`False` on a trace containing no pipeline-phase event. -/
theorem claim_C9_numeric_frequency_aborts (runStep : String → St → Bool)
    (env : Env) (inputs : List String) (f : Nat) (st st1 : St)
    (x : String) (rest : List String) (tr1 : List Event)
    (hgui : get_user_inputs env inputs (f + 1) st =
      (.ok (st1, true, x :: rest), tr1))
    (henb : st1.enable_backups = true)
    (hfreq : st1.backup_frequency = "1" ∨ st1.backup_frequency = "2" ∨
      st1.backup_frequency = "3") :
    ∃ tr, installRun runStep env inputs (f + 1) st = (.ok false, tr) ∧
      noStep tr := by
  obtain ⟨st2, ins2, tr2, hvbs⟩ :=
    validate_backup_settings_numeric_false x rest f st1 henb hfreq
  refine ⟨tr1 ++ tr2,
    installRun_abort_eq runStep env inputs (f + 1) st st1 st2 (x :: rest)
      ins2 tr1 tr2 hgui henb hvbs, ?_⟩
  have h1 : noStep tr1 := by
    have h := get_user_inputs_no_step env inputs (f + 1) st
    rw [hgui] at h
    exact h
  have h2 : noStep tr2 := by
    have h := validate_backup_settings_no_step (x :: rest) (f + 1) st1
    rw [hvbs] at h
    exact h
  exact noStep_append h1 h2

/-- Claim C9 witness: a concrete run from `stAllFlags` on `c9Inputs`
enables backups with the default frequency choice (stored as `"1"`),
and `install` aborts with `False` on a step-free trace. -/
theorem claim_C9_numeric_frequency_aborts_witness :
    ∃ tr, installRun (fun _ _ => true) envAllOk c9Inputs (4 + 1) stAllFlags =
      (.ok false, tr) ∧ noStep tr :=
  claim_C9_numeric_frequency_aborts (fun _ _ => true) envAllOk c9Inputs 4
    stAllFlags c9St1 "" [] c9Tr1 (by rfl) (by rfl) (Or.inl (by rfl))

/-- Claim C10: confirmed.  `run_command` never raises — every command
outcome (success, non-zero exit, timeout, missing executable, other
subprocess error) yields an `.ok (success, output)` pair — so the
`except` branch of the apt-lock probe is unreachable and
`install_dependencies` unconditionally takes the "APT is currently
locked" branch: for every environment, whenever `force_continue` is
unset it returns `False` immediately after the probe. -/
theorem claim_C10_run_command_total_lock_branch :
    (∀ o : CmdOutcome, ∃ r, run_command o = .ok r) ∧
    (∀ (env : Env) (st : St), st.force_continue = false →
      install_dependencies env st =
        (false, [.cmd "lsof /var/lib/dpkg/lock-frontend",
                 .print "APT is currently locked by another process."])) :=
  ⟨run_command_never_raises,
   fun env st h => install_dependencies_locked_abort env st h⟩

/-- Claim C10 witness: at `stAllFlags` (whose `force_continue` is
false) in the all-success environment, `install_dependencies` returns
`False` with the locked-abort trace. -/
theorem claim_C10_run_command_total_lock_branch_witness :
    stAllFlags.force_continue = false ∧
    install_dependencies envAllOk stAllFlags =
      (false, [.cmd "lsof /var/lib/dpkg/lock-frontend",
               .print "APT is currently locked by another process."]) :=
  ⟨rfl, claim_C10_run_command_total_lock_branch.2 envAllOk stAllFlags rfl⟩
